import Mathlib

/-!
Verification of the product-metadata extraction subsystem of the
relationship-tracker repository.

The subsystem consists of two transport endpoints (a local development HTTP
server and a hosted serverless function) sharing the same field extractors:
regex-based scanners over raw HTML for Open Graph tags, the title element,
JSON-LD (schema.org) structured data, plain-text price patterns, and an
Amazon-specific overlay present only in the serverless variant.

The embedding below models:
 - JavaScript regular-expression matching for the concrete patterns used by
   the source (a backtracking engine over lists of characters, with greedy
   and lazy stars, optional atoms, character classes, one capture group per
   pattern, case-insensitive matching, leftmost-match search and matchAll);
 - JSON.parse as a fueled parser into a JSON value type, JS truthiness, and
   parseFloat (numbers are modelled as rationals: the claims under test
   compare exact decimal values, so IEEE rounding is immaterial);
 - the extractor functions, transliterated from the source;
 - both request handlers and the local fetchUrl redirect loop.
-/

/-! ### Characters, case folding, character classes -/

/-- Case folding used for the i regex flag (ASCII-level lower-casing,
matching JS canonicalisation on the characters that occur here). -/
def foldChar (ci : Bool) (c : Char) : Char :=
  if ci then c.toLower else c

/-- A regex character class: a list of members and a negation flag. -/
structure CharSet where
  cs : List Char
  neg : Bool
deriving DecidableEq

/-- Membership in a character class, with optional case folding. -/
def CharSet.memb (ci : Bool) (p : CharSet) (c : Char) : Bool :=
  let b := p.cs.any (fun a => foldChar ci a == foldChar ci c)
  if p.neg then !b else b

/-- The single-quote character (U+0027). -/
def sqC : Char := Char.ofNat 39

/-- Class of one explicit character. -/
def chOf (c : Char) : CharSet := ⟨[c], false⟩

/-- Class of the characters of a string. -/
def oneOf (s : String) : CharSet := ⟨s.data, false⟩

/-- Negated class of the characters of a string. -/
def noneOf (s : String) : CharSet := ⟨s.data, true⟩

/-- The regex class matching a double or single quote. -/
def quoteCls : CharSet := ⟨['"', sqC], false⟩

/-- The regex class for any char but a quote. -/
def notQuote : CharSet := ⟨['"', sqC], true⟩

/-- The regex class for any char but a greater-than sign. -/
def notGt : CharSet := noneOf ">"

/-- The regex class for any char but a less-than sign. -/
def notLt : CharSet := noneOf "<"

/-- The JS digit class. -/
def digitCls : CharSet := oneOf "0123456789"

/-- The JS whitespace class (the characters relevant to this source). -/
def wsCls : CharSet :=
  ⟨[' ', '\t', '\n', Char.ofNat 11, Char.ofNat 12, '\r', Char.ofNat 160,
    Char.ofNat 0x2028, Char.ofNat 0x2029, Char.ofNat 0xfeff], false⟩

/-- The dot without the s flag: any char but a line terminator. -/
def dotNoNl : CharSet :=
  ⟨['\n', '\r', Char.ofNat 0x2028, Char.ofNat 0x2029], true⟩

/-- The dot with the s flag: any char. -/
def dotAll : CharSet := ⟨[], true⟩

/-! ### The regex engine

Patterns are sequences of atoms.  Every pattern in the source falls into the
fragment: literal characters, character classes, greedy and lazy stars of a
class, an optional single class, and exactly one capture group.  The engine
implements the JS backtracking semantics: depth-first search where a greedy
star prefers the longest extension, a lazy star the shortest, and an
optional atom presence; the overall search is leftmost-first. -/

/-- A regex atom over character classes. -/
inductive RI where
  /-- exactly one character of the class -/
  | ch (p : CharSet)
  /-- zero or one character of the class, greedy -/
  | opt (p : CharSet)
  /-- zero or more characters of the class, greedy -/
  | starG (p : CharSet)
  /-- zero or more characters of the class, lazy -/
  | starL (p : CharSet)
deriving DecidableEq

/-- Literal atoms of a list of characters. -/
def litsL (l : List Char) : List RI := l.map (fun c => RI.ch (chOf c))

/-- Literal atoms of a string (each char as a one-char class). -/
def lits (s : String) : List RI := litsL s.data

/-- Greedy star backtracking: try consuming as many class characters as
possible first, then shorter tails. -/
def starGTry (ci : Bool) (p : CharSet) (f : List Char → Option α) :
    List Char → Option α
  | [] => f []
  | c :: s =>
    if p.memb ci c then (starGTry ci p f s).orElse (fun _ => f (c :: s))
    else f (c :: s)

/-- Lazy star backtracking: try consuming nothing first, then extend. -/
def starLTry (ci : Bool) (p : CharSet) (f : List Char → Option α) :
    List Char → Option α
  | [] => f []
  | c :: s =>
    (f (c :: s)).orElse (fun _ =>
      if p.memb ci c then starLTry ci p f s else none)

/-- Match a sequence of atoms at the head of the input, in continuation
style; the continuation receives the rest of the input. -/
def mseq (ci : Bool) : List RI → List Char → (List Char → Option α) → Option α
  | [], s, k => k s
  | RI.ch _ :: _, [], _ => none
  | RI.ch p :: rs, c :: s, k =>
    if p.memb ci c then mseq ci rs s k else none
  | RI.opt _ :: rs, [], k => mseq ci rs [] k
  | RI.opt p :: rs, c :: s, k =>
    (if p.memb ci c then mseq ci rs s k else none).orElse
      (fun _ => mseq ci rs (c :: s) k)
  | RI.starG p :: rs, s, k => starGTry ci p (fun s2 => mseq ci rs s2 k) s
  | RI.starL p :: rs, s, k => starLTry ci p (fun s2 => mseq ci rs s2 k) s

/-- A pattern with one capture group: the atoms before the group, the atoms
of the group, and the atoms after it. -/
structure Pat where
  ci : Bool
  pre : List RI
  mid : List RI
  post : List RI

/-- Attempt an anchored match of a pattern at the head of the input;
returns the captured group and the rest of the input after the whole
match. -/
def matchHere (P : Pat) (s : List Char) : Option (List Char × List Char) :=
  mseq P.ci P.pre s (fun s1 =>
    mseq P.ci P.mid s1 (fun s2 =>
      mseq P.ci P.post s2 (fun s3 =>
        some (s1.take (s1.length - s2.length), s3))))

/-- Leftmost-match search, as JS String.match with a non-global regex. -/
def searchFrom (P : Pat) : List Char → Option (List Char × List Char)
  | [] => matchHere P []
  | c :: s => (matchHere P (c :: s)).orElse (fun _ => searchFrom P s)

/-- The capture group of the leftmost match, i.e. match[1] in JS. -/
def jsMatch (P : Pat) (s : List Char) : Option (List Char) :=
  (searchFrom P s).map (fun r => r.1)

/-- All capture groups, as JS String.matchAll with a global regex (every
pattern used with matchAll in the source matches at least one character,
so advancing to the rest after each match is the JS lastIndex rule). -/
def matchAllF (P : Pat) : Nat → List Char → List (List Char)
  | 0, _ => []
  | n + 1, s =>
    match searchFrom P s with
    | none => []
    | some (cap, rest) => cap :: matchAllF P n rest

/-- All capture groups of a global regex over the input. -/
def jsMatchAll (P : Pat) (s : List Char) : List (List Char) :=
  matchAllF P (s.length + 1) s

/-! ### JSON values and JSON.parse

A fueled parser for the JSON grammar accepted by JSON.parse (strict number
syntax, double-quoted strings with escapes, arrays, objects).  Numbers are
modelled as rationals; the extraction logic only compares and propagates
decimal values, so IEEE rounding is immaterial to the claims. -/

/-- A JSON value. -/
inductive Json where
  | null
  | bool (b : Bool)
  | num (q : ℚ)
  | str (s : List Char)
  | arr (xs : List Json)
  | obj (ms : List (List Char × Json))

/-- JSON whitespace. -/
def jWs (c : Char) : Bool := c == ' ' || c == '\t' || c == '\n' || c == '\r'

/-- Skip JSON whitespace. -/
def skipWs : List Char → List Char
  | [] => []
  | c :: s => if jWs c then skipWs s else c :: s

/-- Value of a hex digit. -/
def hexVal (c : Char) : Option Nat :=
  if '0' ≤ c ∧ c ≤ '9' then some (c.toNat - '0'.toNat)
  else if 'a' ≤ c ∧ c ≤ 'f' then some (c.toNat - 'a'.toNat + 10)
  else if 'A' ≤ c ∧ c ≤ 'F' then some (c.toNat - 'A'.toNat + 10)
  else none

/-- Parse the remainder of a JSON string (after the opening quote);
returns the decoded characters and the input after the closing quote. -/
def parseJStr : List Char → Option (List Char × List Char)
  | [] => none
  | c :: s =>
    if c == '"' then some ([], s)
    else if c == '\\' then
      match s with
      | [] => none
      | e :: s2 =>
        if e == 'u' then
          match s2 with
          | h1 :: h2 :: h3 :: h4 :: s3 =>
            match hexVal h1, hexVal h2, hexVal h3, hexVal h4 with
            | some a, some b, some c3, some d =>
              (parseJStr s3).map (fun r =>
                (Char.ofNat (((a * 16 + b) * 16 + c3) * 16 + d) :: r.1, r.2))
            | _, _, _, _ => none
          | _ => none
        else
          match
            (if e == '"' then some '"'
             else if e == '\\' then some '\\'
             else if e == '/' then some '/'
             else if e == 'b' then some (Char.ofNat 8)
             else if e == 'f' then some (Char.ofNat 12)
             else if e == 'n' then some '\n'
             else if e == 'r' then some '\r'
             else if e == 't' then some '\t'
             else none) with
          | some d => (parseJStr s2).map (fun r => (d :: r.1, r.2))
          | none => none
    else if c.toNat < 32 then none
    else (parseJStr s).map (fun r => (c :: r.1, r.2))

/-- Digits at the head of the input. -/
def takeDigits : List Char → (List Char × List Char)
  | [] => ([], [])
  | c :: s =>
    if c.isDigit then
      let r := takeDigits s
      (c :: r.1, r.2)
    else ([], c :: s)

/-- Numeric value of a digit string. -/
def digitsVal : List Char → Nat :=
  List.foldl (fun a c => a * 10 + (c.toNat - '0'.toNat)) 0

/-- The rational value of a decimal literal: sign, integer digits,
fraction digits and a signed decimal exponent.  Built with mkRat so that
the value evaluates inside the kernel (the generic rational arithmetic of
the library is irreducible by design). -/
def decToRat (neg : Bool) (ds fs : List Char) (esign : Bool) (e : Nat) : ℚ :=
  let m : Nat := digitsVal ds * 10 ^ fs.length + digitsVal fs
  let num : ℤ := if neg then -(m : ℤ) else (m : ℤ)
  if esign then mkRat num (10 ^ (fs.length + e))
  else mkRat (num * ((10 ^ e : Nat) : ℤ)) (10 ^ fs.length)

/-- Parse a JSON number (strict JSON grammar: optional minus, integer part
without leading zeros, optional fraction, optional exponent). -/
def parseJNum (s : List Char) : Option (ℚ × List Char) :=
  let (neg, s1) : Bool × List Char :=
    match s with
    | '-' :: r => (true, r)
    | _ => (false, s)
  let (ds, s2) := takeDigits s1
  if ds.isEmpty then none
  else if ds.length > 1 ∧ ds.head? = some '0' then none
  else
    let (fs, s3) : List Char × List Char :=
      match s2 with
      | '.' :: r => takeDigits r
      | _ => ([], s2)
    match s2 with
    | '.' :: r => if (takeDigits r).1.isEmpty then none else
      parseJNumExp neg ds fs s3
    | _ => parseJNumExp neg ds fs s3
where
  /-- Parse the optional exponent and finish. -/
  parseJNumExp (neg : Bool) (ds fs : List Char) (s : List Char) :
      Option (ℚ × List Char) :=
    match s with
    | e :: r =>
      if e == 'e' || e == 'E' then
        let (esign, r1) : Bool × List Char :=
          match r with
          | '-' :: r2 => (true, r2)
          | '+' :: r2 => (false, r2)
          | _ => (false, r)
        let (es, r2) := takeDigits r1
        if es.isEmpty then none
        else some (decToRat neg ds fs esign (digitsVal es), r2)
      else some (decToRat neg ds fs false 0, e :: r)
    | [] => some (decToRat neg ds fs false 0, [])

/-- Parse comma-separated values (array elements) up to a closing bracket,
given a parser for one value. -/
def sepItems (pv : List Char → Option (Json × List Char)) :
    Nat → List Char → Option (List Json × List Char)
  | 0, _ => none
  | n + 1, s =>
    match pv s with
    | none => none
    | some (v, r) =>
      match skipWs r with
      | ',' :: r2 => (sepItems pv n r2).map (fun t => (v :: t.1, t.2))
      | ']' :: r2 => some ([v], r2)
      | _ => none

/-- Parse comma-separated members (object entries) up to a closing brace,
given a parser for one value. -/
def sepMembers (pv : List Char → Option (Json × List Char)) :
    Nat → List Char → Option (List (List Char × Json) × List Char)
  | 0, _ => none
  | n + 1, s =>
    match skipWs s with
    | '"' :: r =>
      match parseJStr r with
      | none => none
      | some (key, r1) =>
        match skipWs r1 with
        | ':' :: r2 =>
          match pv r2 with
          | none => none
          | some (v, r3) =>
            match skipWs r3 with
            | ',' :: r4 => (sepMembers pv n r4).map (fun t => ((key, v) :: t.1, t.2))
            | c :: r4 =>
              if c == Char.ofNat 125 then some ([(key, v)], r4) else none
            | [] => none
        | _ => none
    | _ => none

/-- Parse one JSON value (fueled; fuel larger than the input length always
suffices because every nesting level consumes at least one character). -/
def parseJVal : Nat → List Char → Option (Json × List Char)
  | 0, _ => none
  | n + 1, s =>
    match skipWs s with
    | [] => none
    | c :: s1 =>
      if c == '"' then (parseJStr s1).map (fun r => (Json.str r.1, r.2))
      else if c == 't' then
        match s1 with
        | 'r' :: 'u' :: 'e' :: r => some (Json.bool true, r)
        | _ => none
      else if c == 'f' then
        match s1 with
        | 'a' :: 'l' :: 's' :: 'e' :: r => some (Json.bool false, r)
        | _ => none
      else if c == 'n' then
        match s1 with
        | 'u' :: 'l' :: 'l' :: r => some (Json.null, r)
        | _ => none
      else if c == '[' then
        match skipWs s1 with
        | ']' :: r => some (Json.arr [], r)
        | _ => (sepItems (parseJVal n) n s1).map (fun t => (Json.arr t.1, t.2))
      else if c == Char.ofNat 123 then
        match skipWs s1 with
        | c2 :: r =>
          if c2 == Char.ofNat 125 then some (Json.obj [], r)
          else (sepMembers (parseJVal n) n s1).map (fun t => (Json.obj t.1, t.2))
        | [] => none
      else (parseJNum (c :: s1)).map (fun r => (Json.num r.1, r.2))

/-- JSON.parse: parse the whole input or fail (the thrown SyntaxError is
modelled as the error case). -/
def jsonParse (s : List Char) : Except Unit Json :=
  match parseJVal (s.length + 1) s with
  | some (v, rest) => if (skipWs rest).isEmpty then .ok v else .error ()
  | none => .error ()

/-! ### JS value helpers: truthiness, property access, parseFloat -/

/-- JS truthiness of a JSON value. -/
def jsTruthy : Json → Bool
  | .null => false
  | .bool b => b
  | .num q => decide (q ≠ 0)
  | .str s => !s.isEmpty
  | .arr _ => true
  | .obj _ => true

/-- JS truthiness where none stands for undefined or null. -/
def truthyOpt : Option Json → Bool
  | none => false
  | some j => jsTruthy j

/-- JS property access o[k]: none models undefined (missing key or a
primitive receiver); duplicate keys resolve to the last occurrence as in
JSON.parse.  Access on null throws and is handled at the call sites. -/
def jsGet (j : Json) (k : List Char) : Option Json :=
  match j with
  | .obj ms => ((ms.filter (fun m => m.1 == k)).getLast?).map (fun m => m.2)
  | _ => none

/-- parseFloat on a string: skip whitespace, optional sign, then the
longest decimal-with-optional-exponent prefix; none models NaN.  (An
Infinity prefix yields a value that serialises to null in the JSON
response, observationally equal to the none case here.) -/
def parseFloatStr (s : List Char) : Option ℚ :=
  let s1 := s.dropWhile (fun c => wsCls.memb false c)
  let (neg, s2) : Bool × List Char :=
    match s1 with
    | '-' :: r => (true, r)
    | '+' :: r => (false, r)
    | _ => (false, s1)
  let (ds, s3) := takeDigits s2
  let (fs, s4) : List Char × List Char :=
    match s3 with
    | '.' :: r => takeDigits r
    | _ => ([], s3)
  if ds.isEmpty ∧ fs.isEmpty then none
  else
    match s4 with
    | e :: r =>
      if e == 'e' || e == 'E' then
        let (esign, r1) : Bool × List Char :=
          match r with
          | '-' :: r2 => (true, r2)
          | '+' :: r2 => (false, r2)
          | _ => (false, r)
        let (es, _) := takeDigits r1
        if es.isEmpty then some (decToRat neg ds fs false 0)
        else some (decToRat neg ds fs esign (digitsVal es))
      else some (decToRat neg ds fs false 0)
    | [] => some (decToRat neg ds fs false 0)

/-- parseFloat applied to an arbitrary JS value (as in
parseFloat(offers.price)): JS stringifies the argument first; on the JSON
values reachable here that is the string itself, the decimal rendering of
a number, the comma-join of an array (whose leading float is the leading
float of the first element), and a non-numeric text for the rest. -/
def jsParseFloat : Json → Option ℚ
  | .str s => parseFloatStr s
  | .num q => some q
  | .arr [] => none
  | .arr (x :: _) =>
    match x with
    | .null => none
    | .bool _ => none
    | .obj _ => none
    | x => jsParseFloat x
  | .bool _ => none
  | .null => none
  | .obj _ => none

/-! ### The concrete regex patterns of the source -/

/-- Forward Open Graph pattern for a property name (the property string is
spliced into the regex source and contains no metacharacters at the call
sites og:title, og:image, og:description). -/
def ogFwdPat (prop : List Char) : Pat :=
  ⟨true,
   lits "<meta" ++ [RI.starG notGt] ++ lits "property=" ++ [RI.ch quoteCls] ++
     litsL prop ++ [RI.ch quoteCls, RI.starG notGt] ++ lits "content=" ++
     [RI.ch quoteCls],
   [RI.starG notQuote],
   [RI.ch quoteCls]⟩

/-- Reversed-order Open Graph pattern. -/
def ogRevPat (prop : List Char) : Pat :=
  ⟨true,
   lits "<meta" ++ [RI.starG notGt] ++ lits "content=" ++ [RI.ch quoteCls],
   [RI.starG notQuote],
   [RI.ch quoteCls, RI.starG notGt] ++ lits "property=" ++ [RI.ch quoteCls] ++
     litsL prop ++ [RI.ch quoteCls]⟩

/-- The tag pattern of extractTag for a tag whose regex reading is t (the
tag string is spliced into the regex source, so bracket characters in it
are read as a character class). -/
def tagPat (t : List RI) : Pat :=
  ⟨true,
   [RI.ch (chOf '<')] ++ t ++ [RI.starG notGt, RI.ch (chOf '>')],
   [RI.starG notLt],
   [RI.ch (chOf '<'), RI.ch (chOf '/')] ++ t ++ [RI.ch (chOf '>')]⟩

/-- Regex reading of the tag string title. -/
def titleTagRI : List RI := litsL "title".data

/-- Regex reading of the tag string used for the description fallback of
the serverless variant.  The source splices the characters of the string
into the regex, so the bracket part becomes the character class of the
characters between the brackets. -/
def metaNameDescRI : List RI :=
  litsL "meta".data ++ [RI.ch (oneOf "name=\"descriptio")]

/-- JSON-LD script-block pattern (global, case-insensitive, dotall). -/
def jsonLdPat : Pat :=
  ⟨true,
   lits "<script" ++ [RI.starG notGt] ++ lits "type=" ++ [RI.ch quoteCls] ++
     lits "application/ld+json" ++ [RI.ch quoteCls, RI.starG notGt] ++ lits ">",
   [RI.starL dotAll],
   lits "</script>"⟩

/-- Group atoms for the digit shapes of the price patterns. -/
def digitsOptDigits : List RI :=
  [RI.ch digitCls, RI.starG digitCls, RI.opt (chOf '.'), RI.starG digitCls]

/-- Group atoms for digits, optional dot, at least one more digit. -/
def digitsDotDigits : List RI :=
  [RI.ch digitCls, RI.starG digitCls, RI.opt (chOf '.'), RI.ch digitCls,
   RI.starG digitCls]

/-- Price text pattern 1: a "price" key/value pair. -/
def pricePat1 : Pat :=
  ⟨true,
   lits "\"price\"" ++ [RI.starG wsCls, RI.ch (chOf ':'), RI.starG wsCls,
     RI.opt (chOf '"')],
   digitsOptDigits,
   [RI.opt (chOf '"')]⟩

/-- Price text pattern 2: a currency-prefixed number. -/
def pricePat2 : Pat :=
  ⟨false, [RI.ch (chOf '$')], digitsDotDigits, []⟩

/-- Price text pattern 3: the word price, a tag close, then a number. -/
def pricePat3 : Pat :=
  ⟨true,
   lits "price" ++ [RI.starG notGt, RI.ch (chOf '>'), RI.starL dotNoNl,
     RI.opt (chOf '$')],
   digitsDotDigits,
   []⟩

/-- Amazon productTitle span pattern. -/
def amzTitlePat : Pat :=
  ⟨true,
   lits "<span" ++ [RI.starG notGt] ++ lits "id=" ++ [RI.ch quoteCls] ++
     lits "productTitle" ++ [RI.ch quoteCls, RI.starG notGt] ++ lits ">",
   [RI.ch notLt, RI.starG notLt],
   lits "</span>"⟩

/-- Amazon landingImage img pattern. -/
def amzImagePat : Pat :=
  ⟨true,
   lits "<img" ++ [RI.starG notGt] ++ lits "id=" ++ [RI.ch quoteCls] ++
     lits "landingImage" ++ [RI.ch quoteCls, RI.starG notGt] ++ lits "src=" ++
     [RI.ch quoteCls],
   [RI.ch notQuote, RI.starG notQuote],
   [RI.ch quoteCls]⟩

/-- Amazon price span pattern for one of the price-block element ids. -/
def amzSpanPricePat (eltId : String) : Pat :=
  ⟨true,
   lits "<span" ++ [RI.starG notGt] ++ lits "id=" ++ [RI.ch quoteCls] ++
     lits eltId ++ [RI.ch quoteCls, RI.starG notGt] ++ lits ">" ++
     [RI.starL dotNoNl, RI.opt (chOf '$')],
   digitsOptDigits,
   lits "</span>"⟩

/-- Amazon a-price-whole class pattern. -/
def amzPriceWholePat : Pat :=
  ⟨true,
   lits "<span" ++ [RI.starG notGt] ++ lits "class=" ++
     [RI.ch quoteCls, RI.starG notQuote] ++ lits "a-price-whole" ++
     [RI.starG notQuote, RI.ch quoteCls, RI.starG notGt] ++ lits ">",
   [RI.ch digitCls, RI.starG digitCls],
   lits "</span>"⟩

/-- Amazon data-attribute price pattern (requires a closing quote). -/
def amzDataPricePat : Pat :=
  ⟨true,
   lits "\"price\"" ++ [RI.starG wsCls, RI.ch (chOf ':'), RI.starG wsCls,
     RI.opt (chOf '"'), RI.opt (chOf '$')],
   digitsOptDigits,
   [RI.ch (chOf '"')]⟩

/-! ### The field extractors -/

/-- The JS idiom match and match[1]: a capture that exists and is
non-empty. -/
def nonEmptyCap : Option (List Char) → Option (List Char)
  | some s => if s.isEmpty then none else some s
  | none => none

/-- JS trim: strip leading and trailing whitespace. -/
def jsTrim (s : List Char) : List Char :=
  ((s.dropWhile (fun c => wsCls.memb false c)).reverse.dropWhile
    (fun c => wsCls.memb false c)).reverse

/-- The JS or-else idiom a or b over string-or-null values (the empty
string is falsy). -/
def jsOr (a b : Option (List Char)) : Option (List Char) :=
  match a with
  | some s => if s.isEmpty then b else some s
  | none => b

/-- extractOGTag: forward attribute order first, then reversed order; a
matched but empty content attribute falls through. -/
def extractOGTag (html prop : List Char) : Option (List Char) :=
  match nonEmptyCap (jsMatch (ogFwdPat prop) html) with
  | some s => some s
  | none => nonEmptyCap (jsMatch (ogRevPat prop) html)

/-- extractTag: the inner text of the first such element, trimmed; an
empty inner text yields null. -/
def extractTag (html : List Char) (t : List RI) : Option (List Char) :=
  (nonEmptyCap (jsMatch (tagPat t) html)).map jsTrim

/-- Strict equality comparison dataAtType === Product. -/
def isProductType (t : Option Json) : Bool :=
  match t with
  | some (.str s) => s == "Product".data
  | _ => false

/-- The capture groups of all JSON-LD script blocks of the document. -/
def jsonLdBlocks (html : List Char) : List (List Char) :=
  jsMatchAll jsonLdPat html

/-- The offers sub-object (or first element of an offers array) price
lookup of one parsed Product block body; none models falling through. -/
def offersPrice (o : Json) : Option ℚ :=
  match jsGet o "price".data with
  | some pj => if jsTruthy pj then jsParseFloat pj else none
  | none => none

/-- One JSON-LD block of extractPrice, with its throw sites: a JSON parse
error, property access on null, and property access on the undefined
first element of an empty offers array all raise; the per-block catch of
the source turns the error case into falling through. -/
def blockPriceE (b : List Char) : Except Unit (Option ℚ) :=
  match jsonParse b with
  | .error _ => .error ()
  | .ok data =>
    match data with
    | .null => .error ()
    | _ =>
      if isProductType (jsGet data "@type".data) ∧
          truthyOpt (jsGet data "offers".data) then
        match jsGet data "offers".data with
        | some (.arr xs) =>
          match xs.head? with
          | none => .error ()
          | some Json.null => .error ()
          | some o => .ok (offersPrice o)
        | some o => .ok (offersPrice o)
        | none => .ok none
      else .ok none

/-- The JSON-LD loop of extractPrice: the first block that yields a price
wins; a block that throws is caught and skipped. -/
def jsonLdPriceLoop : List (List Char) → Option ℚ
  | [] => none
  | b :: bs =>
    match blockPriceE b with
    | .ok (some q) => some q
    | _ => jsonLdPriceLoop bs

/-- The structured-data (JSON-LD) price of a document. -/
def structuredPrice (html : List Char) : Option ℚ :=
  jsonLdPriceLoop (jsonLdBlocks html)

/-- The text-pattern loop of extractPrice: first pattern whose parsed
value is strictly positive wins. -/
def textPriceLoop (html : List Char) : List Pat → Option ℚ
  | [] => none
  | P :: Ps =>
    match nonEmptyCap (jsMatch P html) with
    | some cap =>
      match parseFloatStr cap with
      | some q => if 0 < q then some q else textPriceLoop html Ps
      | none => textPriceLoop html Ps
    | none => textPriceLoop html Ps

/-- The text-pattern price of a document. -/
def textPrice (html : List Char) : Option ℚ :=
  textPriceLoop html [pricePat1, pricePat2, pricePat3]

/-- extractPrice: structured data first, then the text patterns. -/
def extractPrice (html : List Char) : Option ℚ :=
  match structuredPrice html with
  | some q => some q
  | none => textPrice html

/-! ### The Amazon-specific overlay (serverless variant only) -/

/-- One JSON-LD block of extractAmazonTitle: a Product block with a truthy
name yields that name value. -/
def blockNameE (b : List Char) : Except Unit (Option Json) :=
  match jsonParse b with
  | .error _ => .error ()
  | .ok data =>
    match data with
    | .null => .error ()
    | _ =>
      if isProductType (jsGet data "@type".data) ∧
          truthyOpt (jsGet data "name".data) then
        .ok (jsGet data "name".data)
      else .ok none

/-- The JSON-LD loop of extractAmazonTitle. -/
def jsonLdNameLoop : List (List Char) → Option Json
  | [] => none
  | b :: bs =>
    match blockNameE b with
    | .ok (some v) => some v
    | _ => jsonLdNameLoop bs

/-- extractAmazonTitle: the productTitle span first, then the JSON-LD
Product name. -/
def extractAmazonTitle (html : List Char) : Option Json :=
  match nonEmptyCap (jsMatch amzTitlePat html) with
  | some s => some (Json.str (jsTrim s))
  | none => jsonLdNameLoop (jsonLdBlocks html)

/-- One JSON-LD block of extractAmazonImage: a Product block with a truthy
image; a string image (or string first element of an array) is returned
directly, an object with a truthy url yields that url value. -/
def blockImageE (b : List Char) : Except Unit (Option Json) :=
  match jsonParse b with
  | .error _ => .error ()
  | .ok data =>
    match data with
    | .null => .error ()
    | _ =>
      if isProductType (jsGet data "@type".data) ∧
          truthyOpt (jsGet data "image".data) then
        let image : Option Json :=
          match jsGet data "image".data with
          | some (.arr xs) => xs.head?
          | o => o
        match image with
        | some (.str s) => .ok (some (Json.str s))
        | some img =>
          if jsTruthy img ∧ truthyOpt (jsGet img "url".data) then
            .ok (jsGet img "url".data)
          else .ok none
        | none => .ok none
      else .ok none

/-- The JSON-LD loop of extractAmazonImage. -/
def jsonLdImageLoop : List (List Char) → Option Json
  | [] => none
  | b :: bs =>
    match blockImageE b with
    | .ok (some v) => some v
    | _ => jsonLdImageLoop bs

/-- extractAmazonImage: JSON-LD Product image first, then the landingImage
element src. -/
def extractAmazonImage (html : List Char) : Option Json :=
  match jsonLdImageLoop (jsonLdBlocks html) with
  | some v => some v
  | none => (nonEmptyCap (jsMatch amzImagePat html)).map Json.str

/-- The regex tries of extractAmazonPrice, in source order. -/
def amzPricePats : List Pat :=
  [amzSpanPricePat "priceblock_ourprice", amzSpanPricePat "priceblock_dealprice",
   amzSpanPricePat "price_inside_buybox", amzPriceWholePat, amzDataPricePat]

/-- extractAmazonPrice: each pattern in order, first strictly positive
parse wins. -/
def extractAmazonPrice (html : List Char) : Option ℚ :=
  textPriceLoop html amzPricePats

/-! ### The orchestrated metadata computations of the two variants -/

/-- The metadata record assembled by the handlers.  The string-valued
fields hold JS values (the Amazon overlay can surface a raw JSON value as
the title or image); none models null. -/
structure Meta where
  title : Option Json
  imageUrl : Option Json
  price : Option ℚ
  description : Option Json

/-- Boolean prefix test on character lists. -/
def isPrefixB : List Char → List Char → Bool
  | [], _ => true
  | _ :: _, [] => false
  | a :: as, b :: bs => a == b && isPrefixB as bs

/-- Boolean substring test, as JS String.includes. -/
def containsSub (needle : List Char) : List Char → Bool
  | [] => isPrefixB needle []
  | c :: s => isPrefixB needle (c :: s) || containsSub needle s

/-- Serverless variant: whether the request URL is treated as an Amazon
URL. -/
def isAmazonUrl (url : List Char) : Bool :=
  containsSub "amazon.com".data url || containsSub "amazon.".data url

/-- The serverless (hosted-function) metadata computation: the Amazon
overlay for Amazon URLs, with per-field fallback to the generic
extractors, and a description fallback through extractTag. -/
def apiMetadataOf (url html : List Char) : Meta :=
  let amz := isAmazonUrl url
  let title0 : Option Json := if amz then extractAmazonTitle html else none
  let image0 : Option Json := if amz then extractAmazonImage html else none
  let price0 : Option ℚ := if amz then extractAmazonPrice html else none
  let title : Option Json :=
    if truthyOpt title0 then title0
    else (jsOr (extractOGTag html "og:title".data) (extractTag html titleTagRI)).map Json.str
  let imageUrl : Option Json :=
    if truthyOpt image0 then image0
    else (extractOGTag html "og:image".data).map Json.str
  let price : Option ℚ :=
    match price0 with
    | some q => some q
    | none => extractPrice html
  let description : Option Json :=
    (jsOr (extractOGTag html "og:description".data)
      (extractTag html metaNameDescRI)).map Json.str
  ⟨title, imageUrl, price, description⟩

/-- The local development server metadata computation: generic extractors
only, description through og:description only. -/
def localMetadataOf (html : List Char) : Meta :=
  ⟨(jsOr (extractOGTag html "og:title".data) (extractTag html titleTagRI)).map Json.str,
   (extractOGTag html "og:image".data).map Json.str,
   extractPrice html,
   (extractOGTag html "og:description".data).map Json.str⟩

/-! ### The transport endpoints -/

/-- Outcome of the outbound HTML fetch of the serverless handler. -/
inductive FetchOutcome where
  | got (status : Nat) (html : List Char)
  | timeout
  | netError

/-- A response of the serverless handler. -/
structure ApiResponse where
  status : Nat
  success : Bool
  metadata : Option Meta
  error : Option (List Char)

/-- Strip while a predicate holds, from the front. -/
def dropLeading (p : Char → Bool) : List Char → List Char
  | [] => []
  | c :: s => if p c then dropLeading p s else c :: s

/-- WHATWG URL scheme extraction, modelling new URL(url).protocol: strip
leading and trailing C0-control-or-space characters, remove tabs and
newlines, then require an ASCII-alphabetic character followed by scheme
characters up to a colon; the scheme is lower-cased.  Inputs without such
a prefix make new URL throw.  (Inputs whose scheme parses but whose
remainder is itself invalid are modelled as parsing; the claims below
quantify only over rejected inputs, which this model classifies exactly
as WHATWG does.) -/
def urlScheme (s : List Char) : Option (List Char) :=
  let s1 := (dropLeading (fun c => c.toNat ≤ 32)
    ((dropLeading (fun c => c.toNat ≤ 32) s.reverse).reverse)).filter
      (fun c => !(c == '\t' || c == '\n' || c == '\r'))
  match s1 with
  | c :: rest =>
    if c.isAlpha then urlSchemeLoop [c.toLower] rest else none
  | [] => none
where
  /-- Scan scheme characters up to the colon. -/
  urlSchemeLoop (acc : List Char) : List Char → Option (List Char)
    | [] => none
    | c :: r =>
      if c == ':' then some acc
      else if c.isAlpha || c.isDigit || c == '+' || c == '-' || c == '.' then
        urlSchemeLoop (acc ++ [c.toLower]) r
      else none

/-- The serverless handler (the hosted-function variant with the Amazon
overlay): returns the response and whether the HTML fetch was invoked. -/
def apiHandler (method : List Char) (body : Json) (fetch : FetchOutcome) :
    ApiResponse × Bool :=
  if method ≠ "POST".data then
    (⟨405, false, none, some "Method not allowed. Use POST.".data⟩, false)
  else
    match jsGet body "url".data with
    | some (.str u) =>
      if u.isEmpty then
        (⟨400, false, none, some "Invalid request. URL is required.".data⟩, false)
      else
        match urlScheme u with
        | none =>
          (⟨400, false, none, some "Invalid URL format.".data⟩, false)
        | some sch =>
          if sch ≠ "http".data ∧ sch ≠ "https".data then
            (⟨400, false, none,
              some "Invalid URL. Only HTTP and HTTPS protocols are supported.".data⟩,
             false)
          else
            match fetch with
            | .timeout =>
              (⟨408, false, none,
                some "Request timeout. The URL took too long to respond.".data⟩, true)
            | .netError =>
              (⟨500, false, none,
                some "Failed to extract metadata from the URL.".data⟩, true)
            | .got status html =>
              if 200 ≤ status ∧ status ≤ 299 then
                (⟨200, true, some (apiMetadataOf u html), none⟩, true)
              else
                (⟨500, false, none, some "Failed to fetch URL.".data⟩, true)
    | _ => (⟨400, false, none, some "Invalid request. URL is required.".data⟩, false)

/-- Outcome of the local fetchUrl promise as observed by the local server
request handler. -/
inductive LFetch where
  | resolved (html : List Char)
  | rejected (msg : List Char)

/-- A response of the local development server; corsHeaders records
whether the CORS headers were set (they are set before any branch),
fetchInvoked whether fetchUrl was called. -/
structure LocalResponse where
  status : Nat
  corsHeaders : Bool
  success : Option Bool
  metadata : Option Meta
  error : Option (List Char)
  bodyEmpty : Bool
  fetchInvoked : Bool

/-- The local development server request handler. -/
def localHandler (method : List Char) (body : List Char) (fetch : LFetch) :
    LocalResponse :=
  if method = "OPTIONS".data then
    ⟨200, true, none, none, none, true, false⟩
  else if method ≠ "POST".data then
    ⟨405, true, some false, none, some "Method not allowed".data, false, false⟩
  else
    match jsonParse body with
    | .error _ =>
      ⟨500, true, some false, none, some "Failed to extract metadata".data, false, false⟩
    | .ok parsed =>
      match jsGet parsed "url".data with
      | some (.str u) =>
        if u.isEmpty then
          ⟨400, true, some false, none, some "Invalid URL".data, false, false⟩
        else
          match fetch with
          | .resolved html =>
            ⟨200, true, some true, some (localMetadataOf html), none, false, true⟩
          | .rejected msg =>
            ⟨500, true, some false, none,
             some ("Failed to extract metadata: ".data ++ msg), false, true⟩
      | _ => ⟨400, true, some false, none, some "Invalid URL".data, false, false⟩

/-! ### The local fetchUrl redirect recursion -/

/-- A response of the network for one URL, as discriminated by fetchUrl:
a 3xx status with a Location header, a 200 body, another status, or a
network error. -/
inductive NetResp where
  | redirect (loc : List Char)
  | okBody (html : List Char)
  | httpStatus (code : Nat)
  | netFail

/-- The local fetchUrl, indexed by recursion depth: a redirect response
recurses on the Location URL with no hop limit; none means the recursion
has not produced a settled promise within the given depth. -/
def fetchUrlF (net : List Char → NetResp) : Nat → List Char →
    Option (Except Unit (List Char))
  | 0, _ => none
  | n + 1, url =>
    match net url with
    | .redirect loc => fetchUrlF net n loc
    | .okBody html => some (.ok html)
    | .httpStatus _ => some (.error ())
    | .netFail => some (.error ())

/-! ### Derived composition and statement scaffolding -/

/-- The generic title computation shared by both variants: og:title first,
then the title element. -/
def titleOf (html : List Char) : Option (List Char) :=
  jsOr (extractOGTag html "og:title".data) (extractTag html titleTagRI)

/-- Mismatch of two lists within their overlap, up to folding: true when
some position below both lengths carries different folded characters. -/
def mismatchCI (ci : Bool) : List Char → List Char → Bool
  | _, [] => false
  | [], _ => false
  | a :: w2, b :: t2 =>
    (foldChar ci a != foldChar ci b) || mismatchCI ci w2 t2

/-- A forward-order Open Graph title meta tag with quote character q. -/
def fwdMeta (q : Char) (v : List Char) : List Char :=
  "<meta property=".data ++ [q] ++ "og:title".data ++ [q] ++ " content=".data ++
    [q] ++ v ++ [q] ++ "/>".data

/-- A reversed-order Open Graph title meta tag with quote character q. -/
def revMeta (q : Char) (v : List Char) : List Char :=
  "<meta content=".data ++ [q] ++ v ++ [q] ++ " property=".data ++ [q] ++
    "og:title".data ++ [q] ++ "/>".data

/-- A standard title element. -/
def titleElem (w : List Char) : List Char :=
  "<title>".data ++ w ++ "</title>".data

/-- Side conditions on an Open Graph content value under which the meta
tag scanning is exact: the value is non-empty, free of quotes and of the
tag delimiters, and does not itself spell an attribute introducer. -/
def ogValOk (v : List Char) : Prop :=
  v ≠ [] ∧
  (∀ c ∈ v, notQuote.memb true c = true ∧ notGt.memb true c = true ∧
    notLt.memb true c = true) ∧
  containsSub "property=".data (v.map (foldChar true)) = false ∧
  containsSub "content=".data (v.map (foldChar true)) = false

/-- Side condition on a document part: it does not contain the opening of
a meta tag (case-insensitively). -/
def noMetaOpen (l : List Char) : Prop :=
  containsSub "<meta".data (l.map (foldChar true)) = false

/-- Side condition on a document part: it does not contain the opening of
a title element (case-insensitively). -/
def noTitleOpen (l : List Char) : Prop :=
  containsSub "<title".data (l.map (foldChar true)) = false

/-! ### Concrete example documents used in the claims -/

/-- A document whose JSON-LD block carries offers price 19.99 while a bare
9.99 dollar token occurs elsewhere. -/
def exStructuredBeatsText : List Char :=
  ("<html><script type=\"application/ld+json\">\x7b\"@type\":\"Product\"," ++
   "\"offers\":\x7b\"price\":\"19.99\"\x7d\x7d</script>" ++
   "<span>$9.99</span></html>").data

/-- A document whose only price-shaped token is a zero dollar amount. -/
def exOnlyZeroPrice : List Char := "<html><div>$0.00</div></html>".data

/-- A document whose JSON-LD offers price is the string -5. -/
def exNegStructured : List Char :=
  ("<script type=\"application/ld+json\">\x7b\"@type\":\"Product\"," ++
   "\"offers\":\x7b\"price\":\"-5\"\x7d\x7d</script>").data

/-- A document with a plain positive dollar token only. -/
def exPlainDollar : List Char := "<p>$9.99</p>".data

/-- A document with a malformed JSON-LD block before a well-formed Product
block. -/
def exMalformedThenGood : List Char :=
  ("<script type=\"application/ld+json\">\x7bnot json\x7d,,</script>" ++
   "<script type=\"application/ld+json\">\x7b\"@type\":\"Product\"," ++
   "\"offers\":\x7b\"price\":\"12.50\"\x7d\x7d</script>").data

/-- A document carrying both an Amazon productTitle span and an og:title
meta tag. -/
def exAmazonHtml : List Char :=
  ("<span id=\"productTitle\">AmzTitle</span>" ++
   "<meta property=\"og:title\" content=\"OgTitle\"/>").data

/-- An Amazon product URL. -/
def exAmazonUrl : List Char := "https://www.amazon.com/dp/B01".data

/-- A non-Amazon product URL. -/
def exPlainUrl : List Char := "https://example.com/product/07".data

/-- A document whose og:title content attribute is empty and whose title
element is not. -/
def exEmptyOgTitle : List Char :=
  "<meta property=\"og:title\" content=\"\"/><title>Fallback</title>".data

/-- A request body with an ftp URL. -/
def exFtpBody : Json := Json.obj [("url".data, Json.str "ftp://files.example.com/a".data)]

/-- The raw JSON text of the ftp-URL request body, as the local server
receives it on the wire. -/
def exFtpBodyStr : List Char :=
  "\x7b\"url\":\"ftp://files.example.com/a\"\x7d".data

/-- A request body with a syntactically broken URL. -/
def exBrokenBody : Json := Json.obj [("url".data, Json.str "not a url".data)]

/-! ### The redirect-chain networks for the fetch model -/

/-- The URL written as i letters. -/
def natUrl (i : Nat) : List Char := List.replicate i 'a'

/-- A network of k successive redirects followed by a 200 response. -/
def chainNet (k : Nat) (u : List Char) : NetResp :=
  if u.length < k then NetResp.redirect (natUrl (u.length + 1))
  else NetResp.okBody "done".data

/-- A network answering every URL with a redirect to the same URL. -/
def selfLoopNet (u : List Char) : NetResp := NetResp.redirect u

/-! ### Basic lemmas about the engine -/

theorem orElse_some_eq (v : α) (f : Unit → Option α) : (some v).orElse f = some v := rfl

theorem orElse_none_eq (f : Unit → Option α) : (none : Option α).orElse f = f () := rfl

theorem memb_chOf (ci : Bool) (a b : Char) :
    (chOf a).memb ci b = (foldChar ci a == foldChar ci b) := by
  simp [CharSet.memb, chOf, List.any]

theorem nonEmptyCap_spec (o : Option (List Char)) :
    nonEmptyCap o = none ∨ ∃ s, nonEmptyCap o = some s ∧ s ≠ [] := by
  match o with
  | none => exact Or.inl rfl
  | some s =>
    by_cases h : s.isEmpty
    · exact Or.inl (by simp [nonEmptyCap, h])
    · exact Or.inr ⟨s, by simp [nonEmptyCap, h], by simpa [List.isEmpty_iff] using h⟩

theorem starGTry_mono (ci : Bool) (p : CharSet) (f : List Char → Option α)
    (r : α) :
    ∀ (A s : List Char), (∀ c ∈ A, p.memb ci c = true) →
      starGTry ci p f s = some r → starGTry ci p f (A ++ s) = some r := by
  intro A
  induction A with
  | nil => intro s _ h; simpa using h
  | cons c A ih =>
    intro s hA h
    have hc : p.memb ci c = true := hA c (by simp)
    have ht : starGTry ci p f (A ++ s) = some r :=
      ih s (fun x hx => hA x (by simp [hx])) h
    simp [starGTry, hc, ht, orElse_some_eq]

theorem starGTry_none_split (ci : Bool) (p : CharSet) (f : List Char → Option α) :
    ∀ (R S : List Char), (∀ c ∈ R, p.memb ci c = true) →
      (S = [] ∨ ∃ d S2, S = d :: S2 ∧ p.memb ci d = false) →
      (∀ t, t <:+ R → f (t ++ S) = none) →
      starGTry ci p f (R ++ S) = none := by
  intro R
  induction R with
  | nil =>
    intro S _ hS hf
    have h0 : f S = none := by simpa using hf [] List.nil_suffix
    rcases hS with h | ⟨d, S2, rfl, hd⟩
    · subst h; simpa [starGTry] using h0
    · simpa [starGTry, hd] using h0
  | cons c R ih =>
    intro S hR hS hf
    have hc : p.memb ci c = true := hR c (by simp)
    have h1 : starGTry ci p f (R ++ S) = none :=
      ih S (fun x hx => hR x (by simp [hx]))
        hS (fun t ht => hf t (ht.trans (List.suffix_cons c R)))
    have h2 : f (c :: (R ++ S)) = none := by
      simpa [List.cons_append] using hf (c :: R) (List.suffix_refl _)
    simp [starGTry, hc, h1, h2, orElse_none_eq]

theorem mseq_litsL_self (ci : Bool) :
    ∀ (w : List Char) (rs : List RI) (s : List Char) (k : List Char → Option α),
      mseq ci (litsL w ++ rs) (w ++ s) k = mseq ci rs s k := by
  intro w
  induction w with
  | nil => intro rs s k; rfl
  | cons a w ih =>
    intro rs s k
    simp [litsL, mseq, memb_chOf]
    simpa [litsL] using ih rs s k

theorem mseq_lits_none_of_mismatch (ci : Bool) :
    ∀ (w t : List Char), mismatchCI ci w t = true →
      ∀ (rs : List RI) (rest : List Char) (k : List Char → Option α),
        mseq ci (litsL w ++ rs) (t ++ rest) k = none := by
  intro w
  induction w with
  | nil => intro t h; cases t <;> simp [mismatchCI] at h
  | cons a w ih =>
    intro t h rs rest k
    cases t with
    | nil => simp [mismatchCI] at h
    | cons b t2 =>
      simp only [mismatchCI, Bool.or_eq_true, bne_iff_ne, ne_eq] at h
      rcases h with h | h
      · have : (chOf a).memb ci b = false := by
          rw [memb_chOf]
          exact beq_eq_false_iff_ne.mpr h
        simp [litsL, mseq, this]
      · by_cases hab : (chOf a).memb ci b = true
        · simp only [litsL, List.map_cons, List.cons_append, mseq, hab, if_true]
          simpa [litsL] using ih t2 h rs rest k
        · have hab2 : (chOf a).memb ci b = false := by simpa using hab
          simp [litsL, mseq, hab2]

theorem mseq_lits_isPrefix (ci : Bool) :
    ∀ (w s : List Char) (rs : List RI) (k : List Char → Option α) (r : α),
      mseq ci (litsL w ++ rs) s k = some r →
      isPrefixB (w.map (foldChar ci)) (s.map (foldChar ci)) = true := by
  intro w
  induction w with
  | nil => intro s rs k r _; simp [isPrefixB]
  | cons a w ih =>
    intro s rs k r h
    cases s with
    | nil => simp [litsL, mseq] at h
    | cons b s2 =>
      by_cases hab : (chOf a).memb ci b = true
      · simp only [litsL, List.map_cons, List.cons_append, mseq, hab, if_true] at h
        have hp := ih s2 rs k r (by simpa [litsL] using h)
        have he : (foldChar ci a == foldChar ci b) = true := by
          rw [← memb_chOf]; exact hab
        simp [isPrefixB, he, hp]
      · have hab2 : (chOf a).memb ci b = false := by simpa using hab
        simp [litsL, mseq, hab2] at h

theorem isPrefixB_append_cases :
    ∀ (W A B : List Char), isPrefixB W (A ++ B) = true →
      isPrefixB W A = true ∨
        (isPrefixB A W = true ∧ isPrefixB (W.drop A.length) B = true) := by
  intro W A
  induction A generalizing W with
  | nil =>
    intro B h
    exact Or.inr ⟨by cases W <;> simp [isPrefixB], by simpa using h⟩
  | cons a A ih =>
    intro B h
    cases W with
    | nil => exact Or.inl (by simp [isPrefixB])
    | cons w W2 =>
      simp only [List.cons_append, isPrefixB, Bool.and_eq_true] at h
      rcases h with ⟨he, h2⟩
      rcases ih W2 B h2 with h3 | ⟨h3, h4⟩
      · exact Or.inl (by simp [isPrefixB, he, h3])
      · refine Or.inr ⟨?_, ?_⟩
        · have he2 : (a == w) = true := by
            have := beq_iff_eq.mp he; exact beq_iff_eq.mpr this.symm
          simp [isPrefixB, he2, h3]
        · simpa [List.length_cons, List.drop_succ_cons] using h4

theorem isPrefixB_length :
    ∀ (A W : List Char), isPrefixB A W = true → A.length ≤ W.length := by
  intro A
  induction A with
  | nil => intro W _; simp
  | cons a A ih =>
    intro W h
    cases W with
    | nil => simp [isPrefixB] at h
    | cons w W2 =>
      simp only [isPrefixB, Bool.and_eq_true] at h
      have := ih W2 h.2
      simpa using Nat.succ_le_succ this

theorem isPrefixB_flip_of_length :
    ∀ (A W : List Char), isPrefixB A W = true → W.length ≤ A.length →
      isPrefixB W A = true := by
  intro A
  induction A with
  | nil =>
    intro W h hl
    have : W = [] := List.length_eq_zero.mp (Nat.le_zero.mp (by simpa using hl))
    subst this; simp [isPrefixB]
  | cons a A ih =>
    intro W h hl
    cases W with
    | nil => simp [isPrefixB]
    | cons w W2 =>
      simp only [isPrefixB, Bool.and_eq_true] at h ⊢
      exact ⟨beq_iff_eq.mpr (beq_iff_eq.mp h.1).symm, ih W2 h.2 (by simpa using hl)⟩

theorem containsSub_of_suffix_prefix :
    ∀ (W t v : List Char), t <:+ v → isPrefixB W t = true →
      containsSub W v = true := by
  intro W t v
  induction v with
  | nil =>
    intro ht hp
    have : t = [] := List.suffix_nil.mp ht
    subst this
    simpa [containsSub] using hp
  | cons c v ih =>
    intro ht hp
    rcases List.suffix_cons_iff.mp ht with h | h
    · subst h; simp [containsSub, hp]
    · simp [containsSub, ih h hp]

theorem suffix_append_cases :
    ∀ (A B t : List Char), t <:+ A ++ B →
      t <:+ B ∨ ∃ a, a <:+ A ∧ a ≠ [] ∧ t = a ++ B := by
  intro A
  induction A with
  | nil => intro B t h; exact Or.inl (by simpa using h)
  | cons c A ih =>
    intro B t h
    rcases List.suffix_cons_iff.mp (by simpa using h) with h2 | h2
    · exact Or.inr ⟨c :: A, List.suffix_refl _, by simp, by simpa using h2⟩
    · rcases ih B t h2 with h3 | ⟨a, ha, hne, rfl⟩
      · exact Or.inl h3
      · exact Or.inr ⟨a, ha.trans (List.suffix_cons c A), hne, rfl⟩

theorem searchFrom_skip (P : Pat) :
    ∀ (pre rest : List Char),
      (∀ t, t <:+ pre → t ≠ [] → matchHere P (t ++ rest) = none) →
      searchFrom P (pre ++ rest) = searchFrom P rest := by
  intro pre
  induction pre with
  | nil => intro rest _; rfl
  | cons c pre ih =>
    intro rest h
    have h1 : matchHere P (c :: (pre ++ rest)) = none := by
      simpa [List.cons_append] using h (c :: pre) (List.suffix_refl _) (by simp)
    calc searchFrom P ((c :: pre) ++ rest)
        = (matchHere P (c :: (pre ++ rest))).orElse
            (fun _ => searchFrom P (pre ++ rest)) := rfl
      _ = searchFrom P (pre ++ rest) := by rw [h1]; rfl
      _ = searchFrom P rest := ih rest
          (fun t ht hne => h t (ht.trans (List.suffix_cons c pre)) hne)

theorem mseq_lits_none_value (ci : Bool) (w v t2 rest : List Char) (d : Char)
    (rs : List RI) (k : List Char → Option α)
    (hsuf : t2 <:+ v) (hne : t2 ≠ [])
    (hcont : containsSub (w.map (foldChar ci)) (v.map (foldChar ci)) = false)
    (hd : ((w.map (foldChar ci)).drop 1).all
      (fun x => x != foldChar ci d) = true) :
    mseq ci (litsL w ++ rs) (t2 ++ d :: rest) k = none := by
  cases hm : mseq ci (litsL w ++ rs) (t2 ++ d :: rest) k with
  | none => rfl
  | some r =>
    exfalso
    have hp := mseq_lits_isPrefix ci w (t2 ++ d :: rest) rs k r hm
    rw [List.map_append] at hp
    have hsuf2 : t2.map (foldChar ci) <:+ v.map (foldChar ci) := by
      rcases hsuf with ⟨p, hp2⟩
      exact ⟨p.map (foldChar ci), by rw [← List.map_append, hp2]⟩
    rcases isPrefixB_append_cases _ _ _ hp with h1 | ⟨h1, h2⟩
    · have := containsSub_of_suffix_prefix _ _ _ hsuf2 h1
      rw [hcont] at this
      exact Bool.false_ne_true this
    · by_cases hlen :
        (w.map (foldChar ci)).length ≤ (t2.map (foldChar ci)).length
      · have h3 := isPrefixB_flip_of_length _ _ h1 hlen
        have := containsSub_of_suffix_prefix _ _ _ hsuf2 h3
        rw [hcont] at this
        exact Bool.false_ne_true this
      · push_neg at hlen
        have hAlen : 1 ≤ (t2.map (foldChar ci)).length := by
          cases t2 with
          | nil => exact absurd rfl hne
          | cons a t3 => simp
        have hdropne : (w.map (foldChar ci)).drop
            (t2.map (foldChar ci)).length ≠ [] := by
          intro h0
          have := List.drop_eq_nil_iff.mp h0
          omega
        obtain ⟨x, W2, hxW⟩ := List.exists_cons_of_ne_nil hdropne
        rw [hxW] at h2
        have hmap : (d :: rest).map (foldChar ci) =
            foldChar ci d :: rest.map (foldChar ci) := rfl
        rw [hmap] at h2
        simp only [isPrefixB, Bool.and_eq_true] at h2
        have hx : x = foldChar ci d := beq_iff_eq.mp h2.1
        have hmem : x ∈ (w.map (foldChar ci)).drop
            (t2.map (foldChar ci)).length := by
          rw [hxW]; simp
        have hsub : (w.map (foldChar ci)).drop (t2.map (foldChar ci)).length ⊆
            (w.map (foldChar ci)).drop 1 := by
          have heq : (w.map (foldChar ci)).drop (t2.map (foldChar ci)).length =
              ((w.map (foldChar ci)).drop 1).drop
                ((t2.map (foldChar ci)).length - 1) := by
            rw [List.drop_drop]
            congr 1
            omega
          rw [heq]
          exact List.drop_subset _ _
        have hmem2 : foldChar ci d ∈ (w.map (foldChar ci)).drop 1 := hx ▸ hsub hmem
        rw [List.all_eq_true] at hd
        have := hd _ hmem2
        simp at this

theorem starGTry_stop (ci : Bool) (p : CharSet) (f : List Char → Option α)
    (b : Char) (B : List Char) (hb : p.memb ci b = false) :
    starGTry ci p f (b :: B) = f (b :: B) := by
  simp [starGTry, hb]

theorem starGTry_enter (ci : Bool) (p : CharSet) (f : List Char → Option α)
    (b : Char) (B : List Char) (hb : p.memb ci b = true)
    (hdeep : starGTry ci p f B = none) :
    starGTry ci p f (b :: B) = f (b :: B) := by
  simp [starGTry, hb, hdeep, orElse_none_eq]

theorem tails_mismatch_none (ci : Bool) (w C : List Char)
    (hall : ∀ a ∈ C.tails, a = [] ∨ mismatchCI ci w a = true) :
    ∀ t, t <:+ C → t ≠ [] → ∀ (rs : List RI) (rest : List Char)
      (k : List Char → Option α),
      mseq ci (litsL w ++ rs) (t ++ rest) k = none := by
  intro t ht hne rs rest k
  rcases hall t ((List.mem_tails t C).mpr ht) with h | h
  · exact absurd h hne
  · exact mseq_lits_none_of_mismatch ci w t h rs rest k

/-! ### The Open Graph meta-tag scanning lemmas -/


-- quote facts
theorem quote_membs (q : Char) (hq : q = '"' ∨ q = sqC) :
    quoteCls.memb true q = true ∧ notGt.memb true q = true ∧
      notQuote.memb true q = false ∧ notLt.memb true q = true := by
  rcases hq with rfl | rfl <;> exact ⟨by decide, by decide, by decide, by decide⟩

-- the region obligations of the first star of the forward og pattern
-- R1 = "roperty=" ++ [q] ++ "og:title" ++ [q] ++ " content=" ++ [q] ++ v ++ [q, '/']
-- continuation starts with lits "property="
theorem fwdStar1Oblig (q : Char) (v post : List Char)
    (hq : q = '"' ∨ q = sqC) (hv : ogValOk v)
    (rs : List RI) (k : List Char → Option (List Char × List Char)) :
    ∀ t, t <:+ ("roperty=".data ++ [q] ++ "og:title".data ++ [q] ++
        " content=".data ++ [q]) ++ (v ++ [q, '/']) →
      mseq true (litsL "property=".data ++ rs) (t ++ '>' :: post) k = none := by
  intro t ht
  obtain ⟨hvne, hvchars, hvprop, hvcont⟩ := hv
  rcases suffix_append_cases _ _ _ ht with h | ⟨a, ha, hane, rfl⟩
  · -- t within v ++ [q, '/']
    rcases suffix_append_cases v [q, '/'] t h with h2 | ⟨b, hb, hbne, rfl⟩
    · -- t within [q, '/'] : concrete tails
      rcases List.suffix_cons_iff.mp h2 with h3 | h2b
      · -- t = [q, '/']
        subst h3
        have : mismatchCI true "property=".data [q] = true := by
          rcases hq with rfl | rfl <;> decide
        have h4 := mseq_lits_none_of_mismatch true "property=".data [q] this
          rs ('/' :: '>' :: post) k
        simpa using h4
      · rcases List.suffix_cons_iff.mp h2b with h3 | h2c
        · -- t = ['/']
          subst h3
          have : mismatchCI true "property=".data ['/'] = true := by decide
          simpa using mseq_lits_none_of_mismatch true "property=".data ['/'] this
            rs ('>' :: post) k
        · -- t = []
          have h3 : t = [] := List.suffix_nil.mp h2c
          subst h3
          have : mismatchCI true "property=".data ['>'] = true := by decide
          simpa using mseq_lits_none_of_mismatch true "property=".data ['>'] this
            rs post k
    · -- t = b ++ [q, '/'] with b a non-empty suffix of v
      have hfold : "property=".data.map (foldChar true) = "property=".data := by
        decide
      have hd : (("property=".data.map (foldChar true)).drop 1).all
          (fun x => x != foldChar true q) = true := by
        rcases hq with rfl | rfl <;> decide
      have h4 := mseq_lits_none_value true "property=".data v b ('/' :: '>' :: post)
        q rs k hb hbne (by rw [hfold]; exact hvprop) hd
      simpa using h4
  · -- t = a ++ (v ++ [q, '/']) with a a non-empty suffix of the concrete part
    have hall : ∀ x ∈ ("roperty=".data ++ [q] ++ "og:title".data ++ [q] ++
        " content=".data ++ [q]).tails, x = [] ∨
          mismatchCI true "property=".data x = true := by
      rcases hq with rfl | rfl <;> decide
    have h4 := tails_mismatch_none true "property=".data _ hall a ha hane rs
      (v ++ [q, '/'] ++ '>' :: post) k
    simpa using h4

-- star2 region obligations (continuation lits "content=")
theorem fwdStar2Oblig (q : Char) (v post : List Char)
    (hq : q = '"' ∨ q = sqC) (hv : ogValOk v)
    (rs : List RI) (k : List Char → Option (List Char × List Char)) :
    ∀ t, t <:+ ("ontent=".data ++ [q]) ++ (v ++ [q, '/']) →
      mseq true (litsL "content=".data ++ rs) (t ++ '>' :: post) k = none := by
  intro t ht
  obtain ⟨hvne, hvchars, hvprop, hvcont⟩ := hv
  rcases suffix_append_cases _ _ _ ht with h | ⟨a, ha, hane, rfl⟩
  · rcases suffix_append_cases v [q, '/'] t h with h2 | ⟨b, hb, hbne, rfl⟩
    · rcases List.suffix_cons_iff.mp h2 with h3 | h2b
      · subst h3
        have : mismatchCI true "content=".data [q] = true := by
          rcases hq with rfl | rfl <;> decide
        simpa using mseq_lits_none_of_mismatch true "content=".data [q] this
          rs ('/' :: '>' :: post) k
      · rcases List.suffix_cons_iff.mp h2b with h3 | h2c
        · subst h3
          have : mismatchCI true "content=".data ['/'] = true := by decide
          simpa using mseq_lits_none_of_mismatch true "content=".data ['/'] this
            rs ('>' :: post) k
        · have h3 : t = [] := List.suffix_nil.mp h2c
          subst h3
          have : mismatchCI true "content=".data ['>'] = true := by decide
          simpa using mseq_lits_none_of_mismatch true "content=".data ['>'] this
            rs post k
    · have hfold : "content=".data.map (foldChar true) = "content=".data := by
        decide
      have hd : (("content=".data.map (foldChar true)).drop 1).all
          (fun x => x != foldChar true q) = true := by
        rcases hq with rfl | rfl <;> decide
      have h4 := mseq_lits_none_value true "content=".data v b ('/' :: '>' :: post)
        q rs k hb hbne (by rw [hfold]; exact hvcont) hd
      simpa using h4
  · have hall : ∀ x ∈ ("ontent=".data ++ [q]).tails, x = [] ∨
        mismatchCI true "content=".data x = true := by
      rcases hq with rfl | rfl <;> decide
    have h4 := tails_mismatch_none true "content=".data _ hall a ha hane rs
      (v ++ [q, '/'] ++ '>' :: post) k
    simpa using h4


theorem group_end_take (v rest : List Char) :
    (v ++ rest).take ((v ++ rest).length - rest.length) = v := by
  rw [List.length_append, Nat.add_sub_cancel]
  exact List.take_left v rest

-- single-character greedy star consumption preserving success
theorem starGTry_mono_cons (ci : Bool) (p : CharSet) (f : List Char → Option α)
    (b : Char) (s : List Char) (r : α) (hb : p.memb ci b = true)
    (h : starGTry ci p f s = some r) : starGTry ci p f (b :: s) = some r := by
  simp [starGTry, hb, h, orElse_some_eq]

theorem memb_chOf_self (ci : Bool) (c : Char) : (chOf c).memb ci c = true := by
  simp [memb_chOf]

-- the core forward lemma
theorem ogFwd_core (q : Char) (v post : List Char)
    (hq : q = '"' ∨ q = sqC) (hv : ogValOk v) :
    matchHere (ogFwdPat "og:title".data)
      ("<meta".data ++ (' ' :: ("property=".data ++ (q :: ("og:title".data ++
        (q :: (' ' :: ("content=".data ++ (q :: (v ++ (q :: ('/' :: ('>' ::
          post))))))))))))) = some (v, '/' :: '>' :: post) := by
  obtain ⟨hqm, hqng, hqnq, hqnl⟩ := quote_membs q hq
  obtain ⟨hvne, hvchars, hvprop, hvcont⟩ := hv
  set K : List Char → Option (List Char × List Char) :=
    fun s1 => mseq true [RI.starG notQuote] s1 (fun s2 =>
      mseq true [RI.ch quoteCls] s2 (fun s3 =>
        some (s1.take (s1.length - s2.length), s3))) with hK
  have hKval : K (v ++ (q :: ('/' :: ('>' :: post)))) =
      some (v, '/' :: ('>' :: post)) := by
    rw [hK]
    show starGTry true notQuote _ (v ++ (q :: ('/' :: ('>' :: post)))) = _
    refine starGTry_mono true notQuote _ _ v (q :: ('/' :: ('>' :: post)))
      (fun c hc => (hvchars c hc).1) ?_
    rw [starGTry_stop true notQuote _ q _ hqnq]
    show mseq true [RI.ch quoteCls] (q :: ('/' :: ('>' :: post)))
      (fun s3 => some ((v ++ (q :: ('/' :: ('>' :: post)))).take
        ((v ++ (q :: ('/' :: ('>' :: post)))).length -
          (q :: ('/' :: ('>' :: post))).length), s3)) = _
    simp only [mseq, hqm, if_true]
    rw [group_end_take v (q :: ('/' :: ('>' :: post)))]
  have hF2 : mseq true (litsL "content=".data ++ [RI.ch quoteCls])
      ("content=".data ++ (q :: (v ++ (q :: ('/' :: ('>' :: post)))))) K =
      some (v, '/' :: ('>' :: post)) := by
    rw [mseq_litsL_self]
    simp only [mseq, hqm, if_true]
    exact hKval
  have hdeep2 : starGTry true notGt
      (fun s2 => mseq true (litsL "content=".data ++ [RI.ch quoteCls]) s2 K)
      ("ontent=".data ++ (q :: (v ++ (q :: ('/' :: ('>' :: post)))))) = none := by
    have hsplit := starGTry_none_split true notGt
      (fun s2 => mseq true (litsL "content=".data ++ [RI.ch quoteCls]) s2 K)
      (("ontent=".data ++ [q]) ++ (v ++ [q, '/'])) ('>' :: post)
      ?_ ?_ ?_
    · have hre : ((("ontent=".data ++ [q]) ++ (v ++ [q, '/'])) ++ '>' :: post) =
          "ontent=".data ++ (q :: (v ++ (q :: ('/' :: ('>' :: post))))) := by
        simp [List.append_assoc]
      rwa [hre] at hsplit
    · intro c hc
      rcases List.mem_append.mp hc with h | h
      · rcases List.mem_append.mp h with h | h
        · exact (by decide :
            ∀ x ∈ "ontent=".data, CharSet.memb true notGt x = true) c h
        · simp only [List.mem_singleton] at h
          subst h; exact hqng
      · rcases List.mem_append.mp h with h | h
        · exact (hvchars c h).2.1
        · rcases List.mem_cons.mp h with h | h
          · subst h; exact hqng
          · simp only [List.mem_singleton] at h
            subst h; decide
    · exact Or.inr ⟨'>', post, rfl, by decide⟩
    · intro t ht
      exact fwdStar2Oblig q v post hq
        ⟨hvne, hvchars, hvprop, hvcont⟩ [RI.ch quoteCls] K t ht
  have hstar2 : starGTry true notGt
      (fun s2 => mseq true (litsL "content=".data ++ [RI.ch quoteCls]) s2 K)
      (' ' :: ("content=".data ++ (q :: (v ++ (q :: ('/' :: ('>' :: post))))))) =
      some (v, '/' :: ('>' :: post)) := by
    refine starGTry_mono_cons true notGt _ ' ' _ _ (by decide) ?_
    show starGTry true notGt _
      ('c' :: ("ontent=".data ++ (q :: (v ++ (q :: ('/' :: ('>' :: post))))))) = _
    rw [starGTry_enter true notGt _ 'c' _ (by decide) hdeep2]
    exact hF2
  have hF1 : mseq true (litsL "property=".data ++ (RI.ch quoteCls ::
      (litsL "og:title".data ++ (RI.ch quoteCls :: RI.starG notGt ::
        (litsL "content=".data ++ [RI.ch quoteCls])))))
      ("property=".data ++ (q :: ("og:title".data ++ (q :: (' ' ::
        ("content=".data ++ (q :: (v ++ (q :: ('/' :: ('>' :: post))))))))))) K =
      some (v, '/' :: ('>' :: post)) := by
    rw [mseq_litsL_self]
    simp only [mseq, hqm, memb_chOf_self, if_true]
    exact hstar2
  have hdeep1 : starGTry true notGt
      (fun s2 => mseq true (litsL "property=".data ++ (RI.ch quoteCls ::
        (litsL "og:title".data ++ (RI.ch quoteCls :: RI.starG notGt ::
          (litsL "content=".data ++ [RI.ch quoteCls]))))) s2 K)
      ("roperty=".data ++ (q :: ("og:title".data ++ (q :: (' ' ::
        ("content=".data ++ (q :: (v ++ (q :: ('/' :: ('>' :: post))))))))))) =
      none := by
    have hsplit := starGTry_none_split true notGt
      (fun s2 => mseq true (litsL "property=".data ++ (RI.ch quoteCls ::
        (litsL "og:title".data ++ (RI.ch quoteCls :: RI.starG notGt ::
          (litsL "content=".data ++ [RI.ch quoteCls]))))) s2 K)
      (("roperty=".data ++ [q] ++ "og:title".data ++ [q] ++ " content=".data ++
        [q]) ++ (v ++ [q, '/'])) ('>' :: post) ?_ ?_ ?_
    · have hre : (((("roperty=".data ++ [q] ++ "og:title".data ++ [q] ++
          " content=".data ++ [q]) ++ (v ++ [q, '/'])) ++ '>' :: post) =
          ("roperty=".data ++ (q :: ("og:title".data ++ (q :: (' ' ::
            ("content=".data ++ (q :: (v ++ (q :: ('/' :: ('>' ::
              post)))))))))))) := by
        simp [List.append_assoc]
      rwa [hre] at hsplit
    · intro c hc
      rcases List.mem_append.mp hc with h | h
      · rcases List.mem_append.mp h with h | h
        · rcases List.mem_append.mp h with h | h
          · rcases List.mem_append.mp h with h | h
            · rcases List.mem_append.mp h with h | h
              · rcases List.mem_append.mp h with h | h
                · exact (by decide :
                    ∀ x ∈ "roperty=".data, CharSet.memb true notGt x = true) c h
                · simp only [List.mem_singleton] at h
                  subst h; exact hqng
              · exact (by decide :
                  ∀ x ∈ "og:title".data, CharSet.memb true notGt x = true) c h
            · simp only [List.mem_singleton] at h
              subst h; exact hqng
          · exact (by decide :
              ∀ x ∈ " content=".data, CharSet.memb true notGt x = true) c h
        · simp only [List.mem_singleton] at h
          subst h; exact hqng
      · rcases List.mem_append.mp h with h | h
        · exact (hvchars c h).2.1
        · rcases List.mem_cons.mp h with h | h
          · subst h; exact hqng
          · simp only [List.mem_singleton] at h
            subst h; decide
    · exact Or.inr ⟨'>', post, rfl, by decide⟩
    · intro t ht
      exact fwdStar1Oblig q v post hq
        ⟨hvne, hvchars, hvprop, hvcont⟩ _ K t ht
  show mseq true (litsL "<meta".data ++ (RI.starG notGt ::
      (litsL "property=".data ++ (RI.ch quoteCls ::
        (litsL "og:title".data ++ (RI.ch quoteCls :: RI.starG notGt ::
          (litsL "content=".data ++ [RI.ch quoteCls])))))))
    ("<meta".data ++ (' ' :: ("property=".data ++ (q :: ("og:title".data ++
      (q :: (' ' :: ("content=".data ++ (q :: (v ++ (q :: ('/' :: ('>' ::
        post)))))))))))))
    K = some (v, '/' :: ('>' :: post))
  rw [mseq_litsL_self]
  show starGTry true notGt _ (' ' :: ("property=".data ++ (q :: ("og:title".data ++
      (q :: (' ' :: ("content=".data ++ (q :: (v ++ (q :: ('/' :: ('>' ::
        post)))))))))))) = _
  refine starGTry_mono_cons true notGt _ ' ' _ _ (by decide) ?_
  show starGTry true notGt _ ('p' :: ("roperty=".data ++ (q :: ("og:title".data ++
      (q :: (' ' :: ("content=".data ++ (q :: (v ++ (q :: ('/' :: ('>' ::
        post)))))))))))) = _
  rw [starGTry_enter true notGt _ 'p' _ (by decide) hdeep1]
  exact hF1


-- skipping a prefix free of meta openings, the forward search finds the tag
theorem ogFwd_found (q : Char) (pre v post : List Char)
    (hq : q = '"' ∨ q = sqC) (hv : ogValOk v) (hpre : noMetaOpen pre) :
    jsMatch (ogFwdPat "og:title".data) (pre ++ (fwdMeta q v ++ post)) =
      some v := by
  have hv2 := hv
  obtain ⟨hvne, _, _, _⟩ := hv2
  have hcons : fwdMeta q v ++ post =
      '<' :: ("meta property=".data ++ (q :: ("og:title".data ++ (q :: (' ' ::
        ("content=".data ++ (q :: (v ++ (q :: ('/' :: ('>' :: post))))))))))) := by
    simp [fwdMeta, List.append_assoc]
  have hform : fwdMeta q v ++ post =
      "<meta".data ++ (' ' :: ("property=".data ++ (q :: ("og:title".data ++
        (q :: (' ' :: ("content=".data ++ (q :: (v ++ (q :: ('/' :: ('>' ::
          post)))))))))))) := by
    simp [fwdMeta, List.append_assoc]
  have hskip : searchFrom (ogFwdPat "og:title".data)
      (pre ++ (fwdMeta q v ++ post)) =
      searchFrom (ogFwdPat "og:title".data) (fwdMeta q v ++ post) := by
    apply searchFrom_skip
    intro t ht htne
    rw [hcons]
    have hfold : "<meta".data.map (foldChar true) = "<meta".data := by decide
    show mseq true (litsL "<meta".data ++ (RI.starG notGt ::
        (litsL "property=".data ++ (RI.ch quoteCls ::
          (litsL "og:title".data ++ (RI.ch quoteCls :: RI.starG notGt ::
            (litsL "content=".data ++ [RI.ch quoteCls])))))))
      (t ++ '<' :: ("meta property=".data ++ (q :: ("og:title".data ++ (q ::
        (' ' :: ("content=".data ++ (q :: (v ++ (q :: ('/' :: ('>' ::
          post))))))))))))
      (fun s1 => mseq true [RI.starG notQuote] s1 (fun s2 =>
        mseq true [RI.ch quoteCls] s2 (fun s3 =>
          some (s1.take (s1.length - s2.length), s3)))) = none
    exact mseq_lits_none_value true "<meta".data pre t _ '<' _ _ ht htne
      (by rw [hfold]; exact hpre) (by decide)
  have hcore2 : matchHere (ogFwdPat "og:title".data)
      ('<' :: ("meta property=".data ++ (q :: ("og:title".data ++ (q :: (' ' ::
        ("content=".data ++ (q :: (v ++ (q :: ('/' :: ('>' :: post)))))))))))) =
      some (v, '/' :: '>' :: post) := ogFwd_core q v post hq hv
  have hsearch : searchFrom (ogFwdPat "og:title".data) (fwdMeta q v ++ post) =
      some (v, '/' :: '>' :: post) := by
    rw [hcons]
    show (matchHere (ogFwdPat "og:title".data) _).orElse _ = _
    rw [hcore2]
    rfl
  rw [jsMatch, hskip, hsearch]
  rfl

-- region obligations of the first star of the reversed og pattern
theorem revStar1Oblig (q : Char) (v post : List Char)
    (hq : q = '"' ∨ q = sqC) (hv : ogValOk v)
    (rs : List RI) (k : List Char → Option (List Char × List Char)) :
    ∀ t, t <:+ ("ontent=".data ++ [q]) ++ (v ++ ([q] ++ " property=".data ++
        [q] ++ "og:title".data ++ [q] ++ ['/'])) →
      mseq true (litsL "content=".data ++ rs) (t ++ '>' :: post) k = none := by
  intro t ht
  obtain ⟨hvne, hvchars, hvprop, hvcont⟩ := hv
  rcases suffix_append_cases _ _ _ ht with h | ⟨a, ha, hane, rfl⟩
  · rcases suffix_append_cases v _ t h with h2 | ⟨b, hb, hbne, rfl⟩
    · -- t within the concrete part after the value
      have hall : ∀ x ∈ ([q] ++ " property=".data ++ [q] ++ "og:title".data ++
          [q] ++ ['/']).tails, x = [] ∨
            mismatchCI true "content=".data x = true := by
        rcases hq with rfl | rfl <;> decide
      rcases hall t ((List.mem_tails t _).mpr h2) with h3 | h3
      · subst h3
        have : mismatchCI true "content=".data ['>'] = true := by decide
        simpa using mseq_lits_none_of_mismatch true "content=".data ['>'] this
          rs post k
      · exact mseq_lits_none_of_mismatch true "content=".data t h3 rs
          ('>' :: post) k
    · -- t = b ++ concrete with b a non-empty suffix of v
      have hfold : "content=".data.map (foldChar true) = "content=".data := by
        decide
      have hd : (("content=".data.map (foldChar true)).drop 1).all
          (fun x => x != foldChar true q) = true := by
        rcases hq with rfl | rfl <;> decide
      have h4 := mseq_lits_none_value true "content=".data v b
        (" property=".data ++ [q] ++ "og:title".data ++ [q] ++ ['/'] ++
          '>' :: post) q rs k hb hbne (by rw [hfold]; exact hvcont) hd
      have hre : b ++ ([q] ++ " property=".data ++ [q] ++ "og:title".data ++
          [q] ++ ['/']) ++ '>' :: post =
          b ++ q :: (" property=".data ++ [q] ++ "og:title".data ++ [q] ++
            ['/'] ++ '>' :: post) := by
        simp [List.append_assoc]
      rw [hre]
      exact h4
  · have hall : ∀ x ∈ ("ontent=".data ++ [q]).tails, x = [] ∨
        mismatchCI true "content=".data x = true := by
      rcases hq with rfl | rfl <;> decide
    have h4 := tails_mismatch_none true "content=".data _ hall a ha hane rs
      ((v ++ ([q] ++ " property=".data ++ [q] ++ "og:title".data ++ [q] ++
        ['/'])) ++ '>' :: post) k
    simpa [List.append_assoc] using h4

-- region obligations of the trailing star of the reversed og pattern
theorem revStar3Oblig (q : Char) (post : List Char)
    (hq : q = '"' ∨ q = sqC)
    (rs : List RI) (k : List Char → Option (List Char × List Char)) :
    ∀ t, t <:+ ("roperty=".data ++ [q] ++ "og:title".data ++ [q] ++ ['/']) →
      mseq true (litsL "property=".data ++ rs) (t ++ '>' :: post) k = none := by
  intro t ht
  have hall : ∀ x ∈ ("roperty=".data ++ [q] ++ "og:title".data ++ [q] ++
      ['/']).tails, x = [] ∨ mismatchCI true "property=".data x = true := by
    rcases hq with rfl | rfl <;> decide
  rcases hall t ((List.mem_tails t _).mpr ht) with h3 | h3
  · subst h3
    have : mismatchCI true "property=".data ['>'] = true := by decide
    simpa using mseq_lits_none_of_mismatch true "property=".data ['>'] this
      rs post k
  · exact mseq_lits_none_of_mismatch true "property=".data t h3 rs
      ('>' :: post) k

-- the core reversed-order lemma
theorem ogRev_core (q : Char) (v post : List Char)
    (hq : q = '"' ∨ q = sqC) (hv : ogValOk v) :
    matchHere (ogRevPat "og:title".data)
      ("<meta".data ++ (' ' :: ("content=".data ++ (q :: (v ++ (q :: (' ' ::
        ("property=".data ++ (q :: ("og:title".data ++ (q :: ('/' :: ('>' ::
          post))))))))))))) = some (v, '/' :: '>' :: post) := by
  obtain ⟨hqm, hqng, hqnq, hqnl⟩ := quote_membs q hq
  obtain ⟨hvne, hvchars, hvprop, hvcont⟩ := hv
  set K : List Char → Option (List Char × List Char) :=
    fun s1 => mseq true [RI.starG notQuote] s1 (fun s2 =>
      mseq true (RI.ch quoteCls :: RI.starG notGt ::
        (litsL "property=".data ++ (RI.ch quoteCls ::
          (litsL "og:title".data ++ [RI.ch quoteCls])))) s2 (fun s3 =>
        some (s1.take (s1.length - s2.length), s3))) with hK
  -- the deeper region of the trailing star fails
  have hdeep3 : ∀ (k3 : List Char → Option (List Char × List Char)),
      starGTry true notGt
        (fun s2 => mseq true (litsL "property=".data ++ (RI.ch quoteCls ::
          (litsL "og:title".data ++ [RI.ch quoteCls]))) s2 k3)
        ("roperty=".data ++ (q :: ("og:title".data ++ (q :: ('/' :: ('>' ::
          post)))))) = none := by
    intro k3
    have hsplit := starGTry_none_split true notGt
      (fun s2 => mseq true (litsL "property=".data ++ (RI.ch quoteCls ::
        (litsL "og:title".data ++ [RI.ch quoteCls]))) s2 k3)
      ("roperty=".data ++ [q] ++ "og:title".data ++ [q] ++ ['/']) ('>' :: post)
      ?_ ?_ ?_
    · have hre : (("roperty=".data ++ [q] ++ "og:title".data ++ [q] ++ ['/']) ++
          '>' :: post) =
          ("roperty=".data ++ (q :: ("og:title".data ++ (q :: ('/' :: ('>' ::
            post)))))) := by
        simp [List.append_assoc]
      rwa [hre] at hsplit
    · intro c hc
      rcases List.mem_append.mp hc with h | h
      · rcases List.mem_append.mp h with h | h
        · rcases List.mem_append.mp h with h | h
          · rcases List.mem_append.mp h with h | h
            · exact (by decide :
                ∀ x ∈ "roperty=".data, CharSet.memb true notGt x = true) c h
            · simp only [List.mem_singleton] at h
              subst h; exact hqng
          · exact (by decide :
              ∀ x ∈ "og:title".data, CharSet.memb true notGt x = true) c h
        · simp only [List.mem_singleton] at h
          subst h; exact hqng
      · simp only [List.mem_singleton] at h
        subst h; decide
    · exact Or.inr ⟨'>', post, rfl, by decide⟩
    · intro t ht
      exact revStar3Oblig q post hq _ k3 t ht
  -- the group and the trailing atoms succeed
  have hKval : K (v ++ (q :: (' ' :: ("property=".data ++ (q ::
      ("og:title".data ++ (q :: ('/' :: ('>' :: post))))))))) =
      some (v, '/' :: '>' :: post) := by
    rw [hK]
    show starGTry true notQuote _ (v ++ _) = _
    refine starGTry_mono true notQuote _ _ v _
      (fun c hc => (hvchars c hc).1) ?_
    rw [starGTry_stop true notQuote _ q _ hqnq]
    simp only [mseq, hqm, if_true]
    show starGTry true notGt _ (' ' :: ("property=".data ++ (q ::
      ("og:title".data ++ (q :: ('/' :: ('>' :: post))))))) = _
    refine starGTry_mono_cons true notGt _ ' ' _ _ (by decide) ?_
    show starGTry true notGt _ ('p' :: ("roperty=".data ++ (q ::
      ("og:title".data ++ (q :: ('/' :: ('>' :: post))))))) = _
    rw [starGTry_enter true notGt _ 'p' _ (by decide) (hdeep3 _)]
    show mseq true _ ("property=".data ++ (q :: ("og:title".data ++
      (q :: ('/' :: ('>' :: post)))))) _ = _
    rw [mseq_litsL_self]
    simp only [mseq, hqm, memb_chOf_self, if_true]
    rw [group_end_take]
  -- the continuation of the first star at its target
  have hF1 : mseq true (litsL "content=".data ++ [RI.ch quoteCls])
      ("content=".data ++ (q :: (v ++ (q :: (' ' :: ("property=".data ++
        (q :: ("og:title".data ++ (q :: ('/' :: ('>' :: post))))))))))) K =
      some (v, '/' :: '>' :: post) := by
    rw [mseq_litsL_self]
    simp only [mseq, hqm, if_true]
    exact hKval
  -- the first star region fails deeper than its target
  have hdeep1 : starGTry true notGt
      (fun s2 => mseq true (litsL "content=".data ++ [RI.ch quoteCls]) s2 K)
      ("ontent=".data ++ (q :: (v ++ (q :: (' ' :: ("property=".data ++
        (q :: ("og:title".data ++ (q :: ('/' :: ('>' :: post))))))))))) =
      none := by
    have hsplit := starGTry_none_split true notGt
      (fun s2 => mseq true (litsL "content=".data ++ [RI.ch quoteCls]) s2 K)
      (("ontent=".data ++ [q]) ++ (v ++ ([q] ++ " property=".data ++ [q] ++
        "og:title".data ++ [q] ++ ['/']))) ('>' :: post) ?_ ?_ ?_
    · have hre : ((("ontent=".data ++ [q]) ++ (v ++ ([q] ++ " property=".data ++
          [q] ++ "og:title".data ++ [q] ++ ['/']))) ++ '>' :: post) =
          ("ontent=".data ++ (q :: (v ++ (q :: (' ' :: ("property=".data ++
            (q :: ("og:title".data ++ (q :: ('/' :: ('>' :: post))))))))))) := by
        simp [List.append_assoc]
      rwa [hre] at hsplit
    · intro c hc
      rcases List.mem_append.mp hc with h | h
      · rcases List.mem_append.mp h with h | h
        · exact (by decide :
            ∀ x ∈ "ontent=".data, CharSet.memb true notGt x = true) c h
        · simp only [List.mem_singleton] at h
          subst h; exact hqng
      · rcases List.mem_append.mp h with h | h
        · exact (hvchars c h).2.1
        · rcases List.mem_append.mp h with h | h
          · rcases List.mem_append.mp h with h | h
            · rcases List.mem_append.mp h with h | h
              · rcases List.mem_append.mp h with h | h
                · rcases List.mem_append.mp h with h | h
                  · simp only [List.mem_singleton] at h
                    subst h; exact hqng
                  · exact (by decide : ∀ x ∈ " property=".data,
                      CharSet.memb true notGt x = true) c h
                · simp only [List.mem_singleton] at h
                  subst h; exact hqng
              · exact (by decide : ∀ x ∈ "og:title".data,
                  CharSet.memb true notGt x = true) c h
            · simp only [List.mem_singleton] at h
              subst h; exact hqng
          · simp only [List.mem_singleton] at h
            subst h; decide
    · exact Or.inr ⟨'>', post, rfl, by decide⟩
    · intro t ht
      exact revStar1Oblig q v post hq ⟨hvne, hvchars, hvprop, hvcont⟩
        [RI.ch quoteCls] K t ht
  -- assemble
  show mseq true (litsL "<meta".data ++ (RI.starG notGt ::
      (litsL "content=".data ++ [RI.ch quoteCls])))
    ("<meta".data ++ (' ' :: ("content=".data ++ (q :: (v ++ (q :: (' ' ::
      ("property=".data ++ (q :: ("og:title".data ++ (q :: ('/' :: ('>' ::
        post)))))))))))))
    K = some (v, '/' :: '>' :: post)
  rw [mseq_litsL_self]
  show starGTry true notGt _ (' ' :: ("content=".data ++ (q :: (v ++ (q ::
    (' ' :: ("property=".data ++ (q :: ("og:title".data ++ (q :: ('/' ::
      ('>' :: post)))))))))))) = _
  refine starGTry_mono_cons true notGt _ ' ' _ _ (by decide) ?_
  show starGTry true notGt _ ('c' :: ("ontent=".data ++ (q :: (v ++ (q ::
    (' ' :: ("property=".data ++ (q :: ("og:title".data ++ (q :: ('/' ::
      ('>' :: post)))))))))))) = _
  rw [starGTry_enter true notGt _ 'c' _ (by decide) hdeep1]
  exact hF1

theorem mseq_lits_none_of_not_prefix (ci : Bool) (w s : List Char)
    (rs : List RI) (k : List Char → Option α)
    (h : isPrefixB (w.map (foldChar ci)) (s.map (foldChar ci)) = false) :
    mseq ci (litsL w ++ rs) s k = none := by
  cases hm : mseq ci (litsL w ++ rs) s k with
  | none => rfl
  | some r =>
    have := mseq_lits_isPrefix ci w s rs k r hm
    rw [h] at this
    exact absurd this Bool.false_ne_true

theorem searchFrom_none (P : Pat) :
    ∀ (s : List Char), (∀ t, t <:+ s → matchHere P t = none) →
      searchFrom P s = none := by
  intro s
  induction s with
  | nil => intro h; exact h [] (List.suffix_refl _)
  | cons c s2 ih =>
    intro h
    have h1 : matchHere P (c :: s2) = none := h _ (List.suffix_refl _)
    have h2 : searchFrom P s2 = none :=
      ih (fun t ht => h t (ht.trans (List.suffix_cons c s2)))
    show (matchHere P (c :: s2)).orElse (fun _ => searchFrom P s2) = none
    rw [h1, h2]; rfl

theorem bne_fold_of_notLt (c : Char)
    (h : CharSet.memb true notLt c = true) :
    (foldChar true '<' != foldChar true c) = true := by
  simp only [CharSet.memb, notLt, noneOf, List.any, Bool.not_eq_true'] at h
  simp only [bne_iff_ne, ne_eq]
  intro he
  simp only [List.any_cons, List.any_nil, Bool.or_false] at h
  rw [he] at h
  simp at h

theorem mseq_lits_none_of_head (ci : Bool) (w0 : Char) (w' : List Char)
    (c : Char) (rest : List Char) (rs : List RI) (k : List Char → Option α)
    (hne : (foldChar ci w0 != foldChar ci c) = true) :
    mseq ci (litsL (w0 :: w') ++ rs) (c :: rest) k = none := by
  have hmm : mismatchCI ci (w0 :: w') [c] = true := by
    simp [mismatchCI, hne]
  have := mseq_lits_none_of_mismatch ci (w0 :: w') [c] hmm rs rest k
  simpa using this

theorem suffix_head_mem (c : Char) (t l : List Char) (h : (c :: t) <:+ l) :
    c ∈ l := by
  rcases h with ⟨p, hp⟩
  rw [← hp]
  simp

-- the deep failure case: the forward continuation matches property=, the
-- quote, og:title and the quote inside the reversed tag, then dies at the
-- missing content= attribute
theorem fwdOnRev_deep (q : Char) (post : List Char)
    (hq : q = '"' ∨ q = sqC)
    (K : List Char → Option (List Char × List Char)) :
    mseq true (litsL "property=".data ++ (RI.ch quoteCls ::
      (litsL "og:title".data ++ (RI.ch quoteCls :: RI.starG notGt ::
        (litsL "content=".data ++ [RI.ch quoteCls])))))
      ("property=".data ++ (q :: ("og:title".data ++ (q :: ('/' :: ('>' ::
        post)))))) K = none := by
  obtain ⟨hqm, hqng, hqnq, hqnl⟩ := quote_membs q hq
  rw [mseq_litsL_self]
  simp only [mseq, hqm, memb_chOf_self, if_true]
  show starGTry true notGt _ ('/' :: ('>' :: post)) = none
  have hsplit := starGTry_none_split true notGt
    (fun s2 => mseq true (litsL "content=".data ++ [RI.ch quoteCls]) s2 K)
    ['/'] ('>' :: post) ?_ ?_ ?_
  · simpa using hsplit
  · intro c hc
    simp only [List.mem_singleton] at hc
    subst hc; decide
  · exact Or.inr ⟨'>', post, rfl, by decide⟩
  · intro t ht
    rcases List.suffix_cons_iff.mp ht with h3 | h3
    · subst h3
      have : mismatchCI true "content=".data ['/'] = true := by decide
      simpa using mseq_lits_none_of_mismatch true "content=".data ['/'] this
        [RI.ch quoteCls] ('>' :: post) K
    · have h4 : t = [] := List.suffix_nil.mp h3
      subst h4
      have : mismatchCI true "content=".data ['>'] = true := by decide
      simpa using mseq_lits_none_of_mismatch true "content=".data ['>'] this
        [RI.ch quoteCls] post K

-- obligations of the forward star when scanning the reversed tag: every
-- backtracking position for property= inside the reversed tag fails
theorem fwdOnRevOblig (q : Char) (v post : List Char)
    (hq : q = '"' ∨ q = sqC) (hv : ogValOk v)
    (K : List Char → Option (List Char × List Char)) :
    ∀ t, t <:+ (([' '] ++ "content=".data ++ [q]) ++ (v ++ ([q] ++
        " property=".data ++ [q] ++ "og:title".data ++ [q] ++ ['/']))) →
      mseq true (litsL "property=".data ++ (RI.ch quoteCls ::
        (litsL "og:title".data ++ (RI.ch quoteCls :: RI.starG notGt ::
          (litsL "content=".data ++ [RI.ch quoteCls])))))
        (t ++ '>' :: post) K = none := by
  intro t ht
  obtain ⟨hvne, hvchars, hvprop, hvcont⟩ := hv
  rcases suffix_append_cases _ _ _ ht with h | ⟨a, ha, hane, rfl⟩
  · rcases suffix_append_cases v _ t h with h2 | ⟨b, hb, hbne, rfl⟩
    · -- t within the concrete part after the value
      have hall : ∀ x ∈ ([q] ++ " property=".data ++ [q] ++ "og:title".data ++
          [q] ++ ['/']).tails, x = [] ∨
            x = "property=".data ++ [q] ++ "og:title".data ++ [q] ++ ['/'] ∨
            mismatchCI true "property=".data x = true := by
        rcases hq with rfl | rfl <;> decide
      rcases hall t ((List.mem_tails t _).mpr h2) with h3 | h3 | h3
      · subst h3
        have : mismatchCI true "property=".data ['>'] = true := by decide
        simpa using mseq_lits_none_of_mismatch true "property=".data ['>'] this
          _ post K
      · subst h3
        have hre : ("property=".data ++ [q] ++ "og:title".data ++ [q] ++
            ['/']) ++ '>' :: post =
            "property=".data ++ (q :: ("og:title".data ++ (q :: ('/' :: ('>' ::
              post))))) := by
          simp [List.append_assoc]
        rw [hre]
        exact fwdOnRev_deep q post hq K
      · exact mseq_lits_none_of_mismatch true "property=".data t h3 _
          ('>' :: post) K
    · -- t = b ++ concrete with b a non-empty suffix of v
      have hfold : "property=".data.map (foldChar true) = "property=".data := by
        decide
      have hd : (("property=".data.map (foldChar true)).drop 1).all
          (fun x => x != foldChar true q) = true := by
        rcases hq with rfl | rfl <;> decide
      have h4 := mseq_lits_none_value true "property=".data v b
        (" property=".data ++ [q] ++ "og:title".data ++ [q] ++ ['/'] ++
          '>' :: post) q (RI.ch quoteCls :: (litsL "og:title".data ++ (RI.ch quoteCls ::
          RI.starG notGt :: (litsL "content=".data ++ [RI.ch quoteCls])))) K hb hbne
        (by rw [hfold]; exact hvprop) hd
      have hre : b ++ ([q] ++ " property=".data ++ [q] ++ "og:title".data ++
          [q] ++ ['/']) ++ '>' :: post =
          b ++ q :: (" property=".data ++ [q] ++ "og:title".data ++ [q] ++
            ['/'] ++ '>' :: post) := by
        simp [List.append_assoc]
      rw [hre]
      exact h4
  · -- t = a ++ rest with a a non-empty suffix of the part before the value
    have hall : ∀ x ∈ ([' '] ++ "content=".data ++ [q]).tails, x = [] ∨
        mismatchCI true "property=".data x = true := by
      rcases hq with rfl | rfl <;> decide
    have h4 := tails_mismatch_none true "property=".data _ hall a ha hane
      (RI.ch quoteCls :: (litsL "og:title".data ++ (RI.ch quoteCls ::
          RI.starG notGt :: (litsL "content=".data ++ [RI.ch quoteCls]))))
      ((v ++ ([q] ++ " property=".data ++ [q] ++ "og:title".data ++ [q] ++
        ['/'])) ++ '>' :: post) K
    simpa [List.append_assoc] using h4

-- the forward pattern does not match anywhere along the reversed tag
theorem fwdOnRev_core (q : Char) (v post : List Char)
    (hq : q = '"' ∨ q = sqC) (hv : ogValOk v) :
    matchHere (ogFwdPat "og:title".data)
      ("<meta".data ++ (' ' :: ("content=".data ++ (q :: (v ++ (q :: (' ' ::
        ("property=".data ++ (q :: ("og:title".data ++ (q :: ('/' :: ('>' ::
          post))))))))))))) = none := by
  obtain ⟨hqm, hqng, hqnq, hqnl⟩ := quote_membs q hq
  obtain ⟨hvne, hvchars, hvprop, hvcont⟩ := hv
  show mseq true (litsL "<meta".data ++ (RI.starG notGt ::
      (litsL "property=".data ++ (RI.ch quoteCls ::
        (litsL "og:title".data ++ (RI.ch quoteCls :: RI.starG notGt ::
          (litsL "content=".data ++ [RI.ch quoteCls])))))))
    ("<meta".data ++ (' ' :: ("content=".data ++ (q :: (v ++ (q :: (' ' ::
      ("property=".data ++ (q :: ("og:title".data ++ (q :: ('/' :: ('>' ::
        post)))))))))))))
    (fun s1 => mseq true [RI.starG notQuote] s1 (fun s2 =>
      mseq true [RI.ch quoteCls] s2 (fun s3 =>
        some (s1.take (s1.length - s2.length), s3)))) = none
  rw [mseq_litsL_self]
  show starGTry true notGt _ (' ' :: ("content=".data ++ (q :: (v ++ (q ::
    (' ' :: ("property=".data ++ (q :: ("og:title".data ++ (q :: ('/' ::
      ('>' :: post)))))))))))) = none
  have hsplit := starGTry_none_split true notGt
    (fun s2 => mseq true (litsL "property=".data ++ (RI.ch quoteCls ::
      (litsL "og:title".data ++ (RI.ch quoteCls :: RI.starG notGt ::
        (litsL "content=".data ++ [RI.ch quoteCls]))))) s2
      (fun s1 => mseq true [RI.starG notQuote] s1 (fun s2 =>
        mseq true [RI.ch quoteCls] s2 (fun s3 =>
          some (s1.take (s1.length - s2.length), s3)))))
    (([' '] ++ "content=".data ++ [q]) ++ (v ++ ([q] ++ " property=".data ++
      [q] ++ "og:title".data ++ [q] ++ ['/']))) ('>' :: post) ?_ ?_ ?_
  · have hre : ((([' '] ++ "content=".data ++ [q]) ++ (v ++ ([q] ++
        " property=".data ++ [q] ++ "og:title".data ++ [q] ++ ['/']))) ++
        '>' :: post) =
        (' ' :: ("content=".data ++ (q :: (v ++ (q :: (' ' ::
          ("property=".data ++ (q :: ("og:title".data ++ (q :: ('/' :: ('>' ::
            post)))))))))))) := by
      simp [List.append_assoc]
    rwa [hre] at hsplit
  · intro c hc
    rcases List.mem_append.mp hc with h | h
    · rcases List.mem_append.mp h with h | h
      · rcases List.mem_append.mp h with h | h
        · simp only [List.mem_singleton] at h
          subst h; decide
        · exact (by decide :
            ∀ x ∈ "content=".data, CharSet.memb true notGt x = true) c h
      · simp only [List.mem_singleton] at h
        subst h; exact hqng
    · rcases List.mem_append.mp h with h | h
      · exact (hvchars c h).2.1
      · rcases List.mem_append.mp h with h | h
        · rcases List.mem_append.mp h with h | h
          · rcases List.mem_append.mp h with h | h
            · rcases List.mem_append.mp h with h | h
              · rcases List.mem_append.mp h with h | h
                · simp only [List.mem_singleton] at h
                  subst h; exact hqng
                · exact (by decide : ∀ x ∈ " property=".data,
                    CharSet.memb true notGt x = true) c h
              · simp only [List.mem_singleton] at h
                subst h; exact hqng
            · exact (by decide : ∀ x ∈ "og:title".data,
                CharSet.memb true notGt x = true) c h
          · simp only [List.mem_singleton] at h
            subst h; exact hqng
        · simp only [List.mem_singleton] at h
          subst h; decide
  · exact Or.inr ⟨'>', post, rfl, by decide⟩
  · intro t ht
    exact fwdOnRevOblig q v post hq ⟨hvne, hvchars, hvprop, hvcont⟩ _ t ht

-- the forward pattern finds nothing anywhere in the reversed-order document
theorem ogFwd_fails_rev (q : Char) (pre v post : List Char)
    (hq : q = '"' ∨ q = sqC) (hv : ogValOk v)
    (hpre : noMetaOpen pre) (hpost : noMetaOpen post) :
    jsMatch (ogFwdPat "og:title".data) (pre ++ (revMeta q v ++ post)) =
      none := by
  obtain ⟨hqm, hqng, hqnq, hqnl⟩ := quote_membs q hq
  have hv2 := hv
  obtain ⟨hvne, hvchars, hvprop, hvcont⟩ := hv2
  have hcons : revMeta q v ++ post =
      '<' :: ("meta content=".data ++ (q :: (v ++ (q :: (' ' ::
        ("property=".data ++ (q :: ("og:title".data ++ (q :: ('/' :: ('>' ::
          post))))))))))) := by
    simp [revMeta, List.append_assoc]
  have hcons2 : revMeta q v ++ post =
      '<' :: (("meta content=".data ++ ([q] ++ (v ++ ([q] ++
        (" property=".data ++ ([q] ++ ("og:title".data ++ ([q] ++ (['/'] ++
          ['>']))))))))) ++ post) := by
    simp [revMeta, List.append_assoc]
  have hskip : searchFrom (ogFwdPat "og:title".data)
      (pre ++ (revMeta q v ++ post)) =
      searchFrom (ogFwdPat "og:title".data) (revMeta q v ++ post) := by
    apply searchFrom_skip
    intro t ht htne
    rw [hcons]
    have hfold : "<meta".data.map (foldChar true) = "<meta".data := by decide
    show mseq true (litsL "<meta".data ++ (RI.starG notGt ::
        (litsL "property=".data ++ (RI.ch quoteCls ::
          (litsL "og:title".data ++ (RI.ch quoteCls :: RI.starG notGt ::
            (litsL "content=".data ++ [RI.ch quoteCls])))))))
      (t ++ '<' :: ("meta content=".data ++ (q :: (v ++ (q :: (' ' ::
        ("property=".data ++ (q :: ("og:title".data ++ (q :: ('/' :: ('>' ::
          post))))))))))))
      (fun s1 => mseq true [RI.starG notQuote] s1 (fun s2 =>
        mseq true [RI.ch quoteCls] s2 (fun s3 =>
          some (s1.take (s1.length - s2.length), s3)))) = none
    exact mseq_lits_none_value true "<meta".data pre t _ '<' _ _ ht htne
      (by rw [hfold]; exact hpre) (by decide)
  have hm : matchHere (ogFwdPat "og:title".data)
      ('<' :: ("meta content=".data ++ (q :: (v ++ (q :: (' ' ::
        ("property=".data ++ (q :: ("og:title".data ++ (q :: ('/' :: ('>' ::
          post)))))))))))) = none := fwdOnRev_core q v post hq hv
  have hskipInt : searchFrom (ogFwdPat "og:title".data)
      (("meta content=".data ++ ([q] ++ (v ++ ([q] ++ (" property=".data ++
        ([q] ++ ("og:title".data ++ ([q] ++ (['/'] ++ ['>']))))))))) ++ post) =
      searchFrom (ogFwdPat "og:title".data) post := by
    apply searchFrom_skip
    intro t ht htne
    cases t with
    | nil => exact absurd rfl htne
    | cons c t2 =>
      have hc : c ∈ ("meta content=".data ++ ([q] ++ (v ++ ([q] ++
          (" property=".data ++ ([q] ++ ("og:title".data ++ ([q] ++ (['/'] ++
            ['>']))))))))) := suffix_head_mem c t2 _ ht
      have hne : (foldChar true '<' != foldChar true c) = true := by
        rcases List.mem_append.mp hc with h | h
        · exact (by decide : ∀ x ∈ "meta content=".data,
            (foldChar true '<' != foldChar true x) = true) c h
        rcases List.mem_append.mp h with h | h
        · simp only [List.mem_singleton] at h
          subst h; rcases hq with rfl | rfl <;> decide
        rcases List.mem_append.mp h with h | h
        · exact bne_fold_of_notLt c (hvchars c h).2.2
        rcases List.mem_append.mp h with h | h
        · simp only [List.mem_singleton] at h
          subst h; rcases hq with rfl | rfl <;> decide
        rcases List.mem_append.mp h with h | h
        · exact (by decide : ∀ x ∈ " property=".data,
            (foldChar true '<' != foldChar true x) = true) c h
        rcases List.mem_append.mp h with h | h
        · simp only [List.mem_singleton] at h
          subst h; rcases hq with rfl | rfl <;> decide
        rcases List.mem_append.mp h with h | h
        · exact (by decide : ∀ x ∈ "og:title".data,
            (foldChar true '<' != foldChar true x) = true) c h
        rcases List.mem_append.mp h with h | h
        · simp only [List.mem_singleton] at h
          subst h; rcases hq with rfl | rfl <;> decide
        rcases List.mem_append.mp h with h | h
        · simp only [List.mem_singleton] at h
          subst h; decide
        · simp only [List.mem_singleton] at h
          subst h; decide
      exact mseq_lits_none_of_head true '<' "meta".data c (t2 ++ post) _ _ hne
  have hpostNone : searchFrom (ogFwdPat "og:title".data) post = none := by
    apply searchFrom_none
    intro t ht
    by_cases hp : isPrefixB ("<meta".data.map (foldChar true))
        (t.map (foldChar true)) = true
    · exfalso
      have hsuf2 : t.map (foldChar true) <:+ post.map (foldChar true) := by
        rcases ht with ⟨p, hp2⟩
        exact ⟨p.map (foldChar true), by rw [← List.map_append, hp2]⟩
      have h2 := containsSub_of_suffix_prefix _ _ _ hsuf2 hp
      have hfold : "<meta".data.map (foldChar true) = "<meta".data := by decide
      rw [hfold, hpost] at h2
      exact Bool.false_ne_true h2
    · have hp2 : isPrefixB ("<meta".data.map (foldChar true))
          (t.map (foldChar true)) = false := by simpa using hp
      exact mseq_lits_none_of_not_prefix true "<meta".data t _ _ hp2
  have hm2 : matchHere (ogFwdPat "og:title".data)
      ('<' :: (("meta content=".data ++ ([q] ++ (v ++ ([q] ++
        (" property=".data ++ ([q] ++ ("og:title".data ++ ([q] ++ (['/'] ++
          ['>']))))))))) ++ post)) = none := by
    have hre : ('<' :: (("meta content=".data ++ ([q] ++ (v ++ ([q] ++
        (" property=".data ++ ([q] ++ ("og:title".data ++ ([q] ++ (['/'] ++
          ['>']))))))))) ++ post)) =
        ('<' :: ("meta content=".data ++ (q :: (v ++ (q :: (' ' ::
          ("property=".data ++ (q :: ("og:title".data ++ (q :: ('/' :: ('>' ::
            post)))))))))))) := by
      simp [List.append_assoc]
    rw [hre]
    exact hm
  have hs2 : searchFrom (ogFwdPat "og:title".data) (revMeta q v ++ post) =
      none := by
    rw [hcons2]
    show (matchHere (ogFwdPat "og:title".data) _).orElse _ = _
    rw [hm2]
    show searchFrom (ogFwdPat "og:title".data) _ = _
    rw [hskipInt, hpostNone]
  rw [jsMatch, hskip, hs2]
  rfl

-- the reversed pattern finds the reversed tag after a clean prefix
theorem ogRev_found (q : Char) (pre v post : List Char)
    (hq : q = '"' ∨ q = sqC) (hv : ogValOk v) (hpre : noMetaOpen pre) :
    jsMatch (ogRevPat "og:title".data) (pre ++ (revMeta q v ++ post)) =
      some v := by
  have hv2 := hv
  obtain ⟨hvne, _, _, _⟩ := hv2
  have hcons : revMeta q v ++ post =
      '<' :: ("meta content=".data ++ (q :: (v ++ (q :: (' ' ::
        ("property=".data ++ (q :: ("og:title".data ++ (q :: ('/' :: ('>' ::
          post))))))))))) := by
    simp [revMeta, List.append_assoc]
  have hskip : searchFrom (ogRevPat "og:title".data)
      (pre ++ (revMeta q v ++ post)) =
      searchFrom (ogRevPat "og:title".data) (revMeta q v ++ post) := by
    apply searchFrom_skip
    intro t ht htne
    rw [hcons]
    have hfold : "<meta".data.map (foldChar true) = "<meta".data := by decide
    show mseq true (litsL "<meta".data ++ (RI.starG notGt ::
        (litsL "content=".data ++ [RI.ch quoteCls])))
      (t ++ '<' :: ("meta content=".data ++ (q :: (v ++ (q :: (' ' ::
        ("property=".data ++ (q :: ("og:title".data ++ (q :: ('/' :: ('>' ::
          post))))))))))))
      (fun s1 => mseq true [RI.starG notQuote] s1 (fun s2 =>
        mseq true (RI.ch quoteCls :: RI.starG notGt ::
          (litsL "property=".data ++ (RI.ch quoteCls ::
            (litsL "og:title".data ++ [RI.ch quoteCls])))) s2 (fun s3 =>
          some (s1.take (s1.length - s2.length), s3)))) = none
    exact mseq_lits_none_value true "<meta".data pre t _ '<' _ _ ht htne
      (by rw [hfold]; exact hpre) (by decide)
  have hcore2 : matchHere (ogRevPat "og:title".data)
      ('<' :: ("meta content=".data ++ (q :: (v ++ (q :: (' ' ::
        ("property=".data ++ (q :: ("og:title".data ++ (q :: ('/' :: ('>' ::
          post)))))))))))) =
      some (v, '/' :: '>' :: post) := ogRev_core q v post hq hv
  have hsearch : searchFrom (ogRevPat "og:title".data) (revMeta q v ++ post) =
      some (v, '/' :: '>' :: post) := by
    rw [hcons]
    show (matchHere (ogRevPat "og:title".data) _).orElse _ = _
    rw [hcore2]
    rfl
  rw [jsMatch, hskip, hsearch]
  rfl

-- extractOGTag finds a forward-order og:title tag
theorem extractOGTag_fwdDoc (q : Char) (pre v post : List Char)
    (hq : q = '"' ∨ q = sqC) (hv : ogValOk v) (hpre : noMetaOpen pre) :
    extractOGTag (pre ++ (fwdMeta q v ++ post)) "og:title".data = some v := by
  have h1 := ogFwd_found q pre v post hq hv hpre
  have hvne := hv.1
  have he : v.isEmpty = false := by
    cases v with
    | nil => exact absurd rfl hvne
    | cons a l => rfl
  simp [extractOGTag, h1, nonEmptyCap, he]

-- extractOGTag finds a reversed-order og:title tag
theorem extractOGTag_revDoc (q : Char) (pre v post : List Char)
    (hq : q = '"' ∨ q = sqC) (hv : ogValOk v)
    (hpre : noMetaOpen pre) (hpost : noMetaOpen post) :
    extractOGTag (pre ++ (revMeta q v ++ post)) "og:title".data = some v := by
  have h1 := ogFwd_fails_rev q pre v post hq hv hpre hpost
  have h2 := ogRev_found q pre v post hq hv hpre
  have hvne := hv.1
  have he : v.isEmpty = false := by
    cases v with
    | nil => exact absurd rfl hvne
    | cons a l => rfl
  simp [extractOGTag, h1, h2, nonEmptyCap, he]

-- the title element pattern finds the title element after a clean prefix
theorem titleTag_found (pre w post : List Char)
    (hw : ∀ c ∈ w, CharSet.memb true notLt c = true) (hpre : noTitleOpen pre) :
    jsMatch (tagPat titleTagRI) (pre ++ (titleElem w ++ post)) = some w := by
  have hcons : titleElem w ++ post =
      "<title".data ++ ('>' :: (w ++ ('<' :: ("/title>".data ++ post)))) := by
    simp [titleElem, List.append_assoc]
  have hconsHead : titleElem w ++ post =
      '<' :: ("title".data ++ ('>' :: (w ++ ('<' :: ("/title>".data ++
        post))))) := by
    simp [titleElem, List.append_assoc]
  have hskip : searchFrom (tagPat titleTagRI) (pre ++ (titleElem w ++ post)) =
      searchFrom (tagPat titleTagRI) (titleElem w ++ post) := by
    apply searchFrom_skip
    intro t ht htne
    rw [hconsHead]
    have hfold : "<title".data.map (foldChar true) = "<title".data := by decide
    show mseq true (litsL "<title".data ++ (RI.starG notGt ::
        [RI.ch (chOf '>')]))
      (t ++ '<' :: ("title".data ++ ('>' :: (w ++ ('<' :: ("/title>".data ++
        post))))))
      (fun s1 => mseq true [RI.starG notLt] s1 (fun s2 =>
        mseq true (RI.ch (chOf '<') :: RI.ch (chOf '/') ::
          (litsL "title".data ++ [RI.ch (chOf '>')])) s2 (fun s3 =>
          some (s1.take (s1.length - s2.length), s3)))) = none
    exact mseq_lits_none_value true "<title".data pre t _ '<' _ _ ht htne
      (by rw [hfold]; exact hpre) (by decide)
  have hcore : matchHere (tagPat titleTagRI)
      ("<title".data ++ ('>' :: (w ++ ('<' :: ("/title>".data ++ post))))) =
      some (w, post) := by
    show mseq true (litsL "<title".data ++ (RI.starG notGt ::
        [RI.ch (chOf '>')]))
      ("<title".data ++ ('>' :: (w ++ ('<' :: ("/title>".data ++ post)))))
      (fun s1 => mseq true [RI.starG notLt] s1 (fun s2 =>
        mseq true (RI.ch (chOf '<') :: RI.ch (chOf '/') ::
          (litsL "title".data ++ [RI.ch (chOf '>')])) s2 (fun s3 =>
          some (s1.take (s1.length - s2.length), s3)))) = some (w, post)
    rw [mseq_litsL_self]
    show starGTry true notGt _ ('>' :: (w ++ ('<' :: ("/title>".data ++
      post)))) = _
    rw [starGTry_stop true notGt _ '>' _ (by decide)]
    simp only [mseq, memb_chOf_self, if_true]
    show starGTry true notLt _ (w ++ ('<' :: ("/title>".data ++ post))) = _
    refine starGTry_mono true notLt _ _ w _ hw ?_
    rw [starGTry_stop true notLt _ '<' _ (by decide)]
    simp only [mseq, memb_chOf_self, if_true]
    rw [group_end_take]
    rfl
  have hsearch : searchFrom (tagPat titleTagRI) (titleElem w ++ post) =
      some (w, post) := by
    rw [hconsHead]
    show (matchHere (tagPat titleTagRI) _).orElse _ = _
    have hcore2 : matchHere (tagPat titleTagRI)
        ('<' :: ("title".data ++ ('>' :: (w ++ ('<' :: ("/title>".data ++
          post)))))) = some (w, post) := hcore
    rw [hcore2]
    rfl
  rw [jsMatch, hskip, hsearch]
  rfl

-- extractTag on a document carrying a title element
theorem extractTag_titleDoc (pre w post : List Char) (hwne : w ≠ [])
    (hw : ∀ c ∈ w, CharSet.memb true notLt c = true) (hpre : noTitleOpen pre) :
    extractTag (pre ++ (titleElem w ++ post)) titleTagRI = some (jsTrim w) := by
  have h1 := titleTag_found pre w post hw hpre
  have he : w.isEmpty = false := by
    cases w with
    | nil => exact absurd rfl hwne
    | cons a l => rfl
  simp [extractTag, h1, nonEmptyCap, he]


/-! ### Shared helper lemmas for the claims -/

theorem extractOGTag_cases (html prop : List Char) :
    extractOGTag html prop = none ∨
      ∃ s, extractOGTag html prop = some s ∧ s ≠ [] := by
  unfold extractOGTag
  rcases nonEmptyCap_spec (jsMatch (ogFwdPat prop) html) with h | ⟨s, h, hs⟩
  · rw [h]
    rcases nonEmptyCap_spec (jsMatch (ogRevPat prop) html) with h2 | ⟨s, h2, hs⟩
    · exact Or.inl (by rw [h2])
    · exact Or.inr ⟨s, by rw [h2], hs⟩
  · exact Or.inr ⟨s, by rw [h], hs⟩

theorem extractOGTag_ne_nil (html prop : List Char) :
    extractOGTag html prop ≠ some [] := by
  rcases extractOGTag_cases html prop with h | ⟨s, h, hs⟩
  · rw [h]; intro h2; cases h2
  · rw [h]; intro h2; exact hs (by injection h2)

theorem jsOr_none_right (a : Option (List Char))
    (h : a = none ∨ ∃ s, a = some s ∧ s ≠ []) : jsOr a none = a := by
  rcases h with rfl | ⟨s, rfl, hs⟩
  · rfl
  · simp [jsOr, List.isEmpty_iff, hs]

theorem textPriceLoop_pos (html : List Char) :
    ∀ Ps, textPriceLoop html Ps = none ∨
      ∃ p, textPriceLoop html Ps = some p ∧ 0 < p := by
  intro Ps
  induction Ps with
  | nil => exact Or.inl rfl
  | cons P Ps ih =>
    rcases hcap : nonEmptyCap (jsMatch P html) with _ | cap
    · simpa only [textPriceLoop, hcap] using ih
    · rcases hpf : parseFloatStr cap with _ | p
      · simpa only [textPriceLoop, hcap, hpf] using ih
      · by_cases hq : 0 < p
        · exact Or.inr ⟨p, by
            simp only [textPriceLoop, hcap, hpf, if_pos hq], hq⟩
        · simpa only [textPriceLoop, hcap, hpf, if_neg hq] using ih

/-! ### The claims -/

set_option maxRecDepth 10000

/-- C10: for every HTML string and Open Graph property name, extractOGTag
returns either null or a non-empty string: a meta tag whose content
attribute is empty yields absent, never the empty string; concretely, a
document whose og:title content is empty makes the og path yield absent,
so the title composition falls through to the title element. -/
theorem c10_extractOGTag_nonempty :
    (∀ html prop, extractOGTag html prop = none ∨
      ∃ s, extractOGTag html prop = some s ∧ s ≠ []) ∧
    extractOGTag exEmptyOgTitle "og:title".data = none ∧
    jsOr (extractOGTag exEmptyOgTitle "og:title".data)
      (extractTag exEmptyOgTitle titleTagRI) = some "Fallback".data := by
  refine ⟨extractOGTag_cases, ?_, ?_⟩
  · decide
  · decide

/-- C6: when the structured-data strategy finds no price, the text-pattern
strategies treat a zero or unparseable match as a non-match: the price is
then absent or strictly positive, and the document whose only price-shaped
token is a zero dollar amount yields an absent price. -/
theorem c6_zero_price_rejected :
    (∀ html, structuredPrice html = none →
      extractPrice html = none ∨ ∃ p, extractPrice html = some p ∧ 0 < p) ∧
    structuredPrice exOnlyZeroPrice = none ∧
    extractPrice exOnlyZeroPrice = none := by
  refine ⟨?_, by decide, by decide⟩
  intro html h
  unfold extractPrice
  rw [h]
  exact textPriceLoop_pos html _

/-- C6 witness at the concrete zero-price document. -/
theorem c6_zero_price_rejected_witness :
    structuredPrice exOnlyZeroPrice = none ∧
    (extractPrice exOnlyZeroPrice = none ∨
      ∃ p, extractPrice exOnlyZeroPrice = some p ∧ 0 < p) :=
  ⟨by decide, c6_zero_price_rejected.1 exOnlyZeroPrice (by decide)⟩

/-- C7 counterexample: the claim that every returned price is non-negative
fails: a JSON-LD Product block whose offers price is the string -5 makes
extractPrice return -5, a negative number. -/
theorem c7_negative_price_counterexample :
    extractPrice exNegStructured = some (mkRat (-5) 1) ∧
    (mkRat (-5) 1 : ℚ) < 0 := by
  constructor
  · decide
  · decide

/-- C7 amended: a present price is either the structured-data price, which
is returned as parsed with no sign check, or a strictly positive value from
the text patterns; only the text-pattern path guarantees positivity. -/
theorem c7_price_sign_amended :
    ∀ html p, extractPrice html = some p →
      structuredPrice html = some p ∨ 0 < p := by
  intro html p h
  unfold extractPrice at h
  rcases hs : structuredPrice html with _ | q
  · rw [hs] at h
    rcases textPriceLoop_pos html [pricePat1, pricePat2, pricePat3] with h2 | ⟨r, h2, hr⟩
    · rw [show textPrice html = none from h2] at h
      cases h
    · rw [show textPrice html = some r from h2] at h
      injection h with h3
      subst h3
      exact Or.inr hr
  · rw [hs] at h
    injection h with h3
    subst h3
    exact Or.inl rfl

/-- C7 amended witness at a plain dollar-token document. -/
theorem c7_price_sign_amended_witness :
    extractPrice exPlainDollar = some (mkRat 999 100) ∧
    (structuredPrice exPlainDollar = some (mkRat 999 100) ∨
      0 < (mkRat 999 100 : ℚ)) :=
  ⟨by decide, c7_price_sign_amended exPlainDollar _ (by decide)⟩

/-- C4: the structured-data (JSON-LD Product offers) price takes priority
over the text patterns: whenever the JSON-LD loop yields a price the
extractor returns it; concretely, offers price 19.99 wins over a
co-occurring bare 9.99 dollar token. -/
theorem c4_structured_priority :
    (∀ html p, structuredPrice html = some p → extractPrice html = some p) ∧
    structuredPrice exStructuredBeatsText = some (mkRat 1999 100) ∧
    extractPrice exStructuredBeatsText = some (mkRat 1999 100) := by
  refine ⟨?_, by decide, by decide⟩
  intro html p h
  unfold extractPrice
  rw [h]

/-- C4 witness at the concrete document. -/
theorem c4_structured_priority_witness :
    structuredPrice exStructuredBeatsText = some (mkRat 1999 100) ∧
    extractPrice exStructuredBeatsText = some (mkRat 1999 100) :=
  ⟨by decide, c4_structured_priority.1 exStructuredBeatsText _ (by decide)⟩

/-- Following a finite redirect chain of any length succeeds: the local
fetchUrl recursion imposes no hop limit. -/
theorem fetchUrl_chain_follow :
    ∀ (m j : Nat), fetchUrlF (chainNet (j + m)) (m + 1) (natUrl j) =
      some (.ok "done".data) := by
  intro m
  induction m with
  | zero =>
    intro j
    show (match chainNet (j + 0) (natUrl j) with
      | NetResp.redirect loc => fetchUrlF (chainNet (j + 0)) 0 loc
      | NetResp.okBody html => some (.ok html)
      | NetResp.httpStatus _ => some (.error ())
      | NetResp.netFail => some (.error ())) = some (.ok "done".data)
    have : chainNet (j + 0) (natUrl j) = NetResp.okBody "done".data := by
      simp [chainNet, natUrl]
    rw [this]
  | succ m ih =>
    intro j
    show (match chainNet (j + (m + 1)) (natUrl j) with
      | NetResp.redirect loc => fetchUrlF (chainNet (j + (m + 1))) (m + 1) loc
      | NetResp.okBody html => some (.ok html)
      | NetResp.httpStatus _ => some (.error ())
      | NetResp.netFail => some (.error ())) = some (.ok "done".data)
    have h1 : chainNet (j + (m + 1)) (natUrl j) =
        NetResp.redirect (natUrl (j + 1)) := by
      simp [chainNet, natUrl]
    rw [h1]
    have h2 := ih (j + 1)
    have h3 : j + 1 + m = j + (m + 1) := by omega
    rw [h3] at h2
    exact h2

/-- C2: the local fetchUrl follows redirects with no hop limit and does
not terminate on a redirect cycle: on a network answering every URL with a
redirect to itself the recursion never settles at any depth, and a chain
of any finite length k is followed to the end, contradicting a small
bounded hop count. -/
theorem c2_redirects_unbounded :
    (∀ (n : Nat) (u : List Char), fetchUrlF selfLoopNet n u = none) ∧
    (∀ k : Nat, fetchUrlF (chainNet k) (k + 1) (natUrl 0) =
      some (.ok "done".data)) := by
  constructor
  · intro n
    induction n with
    | zero => intro u; rfl
    | succ n ih =>
      intro u
      show (match selfLoopNet u with
        | NetResp.redirect loc => fetchUrlF selfLoopNet n loc
        | NetResp.okBody html => some (.ok html)
        | NetResp.httpStatus _ => some (.error ())
        | NetResp.netFail => some (.error ())) = none
      exact ih u
  · intro k
    have := fetchUrl_chain_follow k 0
    simpa using this

/-- C9 counterexample: an OPTIONS request to the hosted serverless
endpoint is answered with 405 method-not-allowed and an error body, not
with an empty 200, and the orchestrator and fetch are not invoked. -/
theorem c9_options_counterexample :
    (apiHandler "OPTIONS".data (Json.obj []) FetchOutcome.netError).1.status =
      405 ∧
    (apiHandler "OPTIONS".data (Json.obj []) FetchOutcome.netError).1.success =
      false ∧
    (apiHandler "OPTIONS".data (Json.obj []) FetchOutcome.netError).2 = false ∧
    (apiHandler "OPTIONS".data (Json.obj []) FetchOutcome.netError).1.status ≠
      200 := by
  refine ⟨by decide, by decide, by decide, by decide⟩

/-- C9 amended: the local development server answers every OPTIONS request
with HTTP 200, an empty body and the CORS headers set, without invoking
the extraction pipeline or the fetch; the hosted serverless variant
instead answers 405. -/
theorem c9_options_amended :
    ∀ (body : List Char) (fetch : LFetch),
      localHandler "OPTIONS".data body fetch =
        ⟨200, true, none, none, none, true, false⟩ := by
  intro body fetch
  rfl

/-- C1 counterexample: the request body carrying the ftp URL parses, its
url string has scheme ftp rather than http or https, yet the local
development server invokes fetchUrl on it: the claim that the HTML fetch
is never invoked on a non-http(s) URL fails for the local variant, which
never inspects the scheme. -/
theorem c1_invalid_url_counterexample :
    jsonParse exFtpBodyStr = .ok exFtpBody ∧
    jsGet exFtpBody "url".data =
      some (Json.str "ftp://files.example.com/a".data) ∧
    urlScheme "ftp://files.example.com/a".data = some "ftp".data ∧
    (localHandler "POST".data exFtpBodyStr
        (LFetch.resolved "<html></html>".data)).fetchInvoked = true :=
  ⟨rfl, rfl, by decide, rfl⟩

/-- C1 amended: only the hosted serverless variant validates the URL.  For
every request whose url string fails to parse or has a scheme other than
http or https, the serverless handler returns the failure result with
HTTP 400, no metadata, and no fetch; the local development server checks
only that the url field is a present non-empty string, and invokes
fetchUrl regardless of the scheme. -/
theorem c1_invalid_url_amended :
    (∀ (body : Json) (u : List Char) (fetch : FetchOutcome),
      jsGet body "url".data = some (Json.str u) →
      (urlScheme u = none ∨
        ∃ sch, urlScheme u = some sch ∧ sch ≠ "http".data ∧
          sch ≠ "https".data) →
      (apiHandler "POST".data body fetch).1.success = false ∧
      (apiHandler "POST".data body fetch).1.status = 400 ∧
      (apiHandler "POST".data body fetch).1.metadata = none ∧
      (apiHandler "POST".data body fetch).2 = false) ∧
    (∀ (body : List Char) (parsed : Json) (u : List Char) (fetch : LFetch),
      jsonParse body = .ok parsed →
      jsGet parsed "url".data = some (Json.str u) →
      u.isEmpty = false →
      (localHandler "POST".data body fetch).fetchInvoked = true) := by
  constructor
  · intro body u fetch hurl hbad
    unfold apiHandler
    rw [hurl]
    simp only [ne_eq, not_true_eq_false, if_false]
    by_cases hemp : u.isEmpty
    · simp [hemp]
    · simp only [hemp, if_false]
      rcases hbad with hnone | ⟨sch, hsch, hh1, hh2⟩
      · rw [hnone]
        exact ⟨rfl, rfl, rfl, rfl⟩
      · rw [hsch]
        simp [hh1, hh2]
  · intro body parsed u fetch hparse hurl hemp
    unfold localHandler
    rw [hparse]
    simp only [hurl, hemp]
    cases fetch <;> rfl

/-- C1 amended witness at the ftp URL: the serverless handler rejects it
with 400 and no fetch, while the local server invokes fetchUrl on the
same body. -/
theorem c1_invalid_url_amended_witness :
    jsGet exFtpBody "url".data =
      some (Json.str "ftp://files.example.com/a".data) ∧
    urlScheme "ftp://files.example.com/a".data = some "ftp".data ∧
    ((apiHandler "POST".data exFtpBody FetchOutcome.netError).1.success =
        false ∧
      (apiHandler "POST".data exFtpBody FetchOutcome.netError).1.status =
        400 ∧
      (apiHandler "POST".data exFtpBody FetchOutcome.netError).1.metadata =
        none ∧
      (apiHandler "POST".data exFtpBody FetchOutcome.netError).2 = false) ∧
    (localHandler "POST".data exFtpBodyStr
        (LFetch.rejected "err".data)).fetchInvoked = true :=
  ⟨rfl, by decide,
   c1_invalid_url_amended.1 exFtpBody "ftp://files.example.com/a".data
     FetchOutcome.netError rfl
     (Or.inr ⟨"ftp".data, by decide, by decide, by decide⟩),
   c1_invalid_url_amended.2 exFtpBodyStr exFtpBody
     "ftp://files.example.com/a".data (LFetch.rejected "err".data)
     rfl rfl rfl⟩

/-- C8: the extractors are total and never let an exception escape: a
JSON-LD block whose body is not valid JSON raises inside the per-block
try, is caught, and the loop continues with the next block in every
structured-data loop (price, Amazon name, Amazon image); malformed input
is an error of the JSON.parse model, and a document whose first block is
malformed still yields the price of the following well-formed block.  The
regex scanners are total functions of the input by construction, so no
path raises past an extractor. -/
theorem c8_extractors_total :
    (∀ b bs, jsonParse b = .error () →
      jsonLdPriceLoop (b :: bs) = jsonLdPriceLoop bs ∧
      jsonLdNameLoop (b :: bs) = jsonLdNameLoop bs ∧
      jsonLdImageLoop (b :: bs) = jsonLdImageLoop bs) ∧
    jsonParse "not json".data = .error () ∧
    extractPrice exMalformedThenGood = some (mkRat 25 2) := by
  refine ⟨?_, rfl, by decide⟩
  intro b bs h
  refine ⟨?_, ?_, ?_⟩
  · show (match blockPriceE b with
      | .ok (some q) => some q
      | _ => jsonLdPriceLoop bs) = jsonLdPriceLoop bs
    have hb : blockPriceE b = .error () := by
      unfold blockPriceE
      rw [h]
    rw [hb]
  · show (match blockNameE b with
      | .ok (some v) => some v
      | _ => jsonLdNameLoop bs) = jsonLdNameLoop bs
    have hb : blockNameE b = .error () := by
      unfold blockNameE
      rw [h]
    rw [hb]
  · show (match blockImageE b with
      | .ok (some v) => some v
      | _ => jsonLdImageLoop bs) = jsonLdImageLoop bs
    have hb : blockImageE b = .error () := by
      unfold blockImageE
      rw [h]
    rw [hb]

/-- C8 witness at a concrete malformed block. -/
theorem c8_extractors_total_witness :
    jsonParse "not json".data = .error () ∧
    (jsonLdPriceLoop ["not json".data] = jsonLdPriceLoop [] ∧
      jsonLdNameLoop ["not json".data] = jsonLdNameLoop [] ∧
      jsonLdImageLoop ["not json".data] = jsonLdImageLoop []) :=
  ⟨rfl, c8_extractors_total.1 "not json".data [] rfl⟩

/-- C3 counterexample: the two deployment variants do not produce the same
outcome on identical input: for an Amazon URL and a document carrying both
an Amazon productTitle span and an og:title meta tag, the hosted variant
returns the span text while the local variant returns the Open Graph
title. -/
theorem c3_variants_counterexample :
    (apiMetadataOf exAmazonUrl exAmazonHtml).title =
      some (Json.str "AmzTitle".data) ∧
    (localMetadataOf exAmazonHtml).title = some (Json.str "OgTitle".data) ∧
    (apiMetadataOf exAmazonUrl exAmazonHtml).title ≠
      (localMetadataOf exAmazonHtml).title := by
  have e1 : (apiMetadataOf exAmazonUrl exAmazonHtml).title =
      some (Json.str "AmzTitle".data) := rfl
  have e2 : (localMetadataOf exAmazonHtml).title =
      some (Json.str "OgTitle".data) := rfl
  refine ⟨e1, e2, ?_⟩
  rw [e1, e2]
  intro h
  injection h with h2
  injection h2 with h3
  exact absurd h3 (by decide)

/-- C3 amended: the two variants agree, field for field, whenever the URL
is not recognised as an Amazon URL and the extra description fallback of
the hosted variant finds nothing; they diverge on Amazon URLs through the
vendor overlay and on documents matched by that description fallback. -/
theorem c3_variants_amended :
    ∀ url html, isAmazonUrl url = false →
      extractTag html metaNameDescRI = none →
      apiMetadataOf url html = localMetadataOf html := by
  intro url html hamz hdesc
  unfold apiMetadataOf localMetadataOf
  rw [hamz]
  simp only [if_false, Bool.false_eq_true, truthyOpt]
  rw [hdesc]
  rw [jsOr_none_right _ (extractOGTag_cases html "og:description".data)]

/-- C3 amended witness at a non-Amazon URL over the shared document. -/
theorem c3_variants_amended_witness :
    isAmazonUrl exPlainUrl = false ∧
    extractTag exAmazonHtml metaNameDescRI = none ∧
    apiMetadataOf exPlainUrl exAmazonHtml = localMetadataOf exAmazonHtml :=
  ⟨by decide, by decide,
   c3_variants_amended exPlainUrl exAmazonHtml (by decide) (by decide)⟩

/-- C5: title extraction returns the content attribute of an og:title meta
tag, tolerating both attribute orders and both quote styles (under the
side conditions making the ad hoc regex scan exact: a non-empty value free
of quotes and tag delimiters that does not itself spell an attribute
introducer, and surrounding document parts that do not open another meta
tag); when no og:title value is found it falls back to the inner text of
the title element trimmed of whitespace; and the title is absent exactly
when both steps fail. -/
theorem c5_title_extraction :
    (∀ q pre v post, (q = '"' ∨ q = sqC) → ogValOk v → noMetaOpen pre →
      titleOf (pre ++ (fwdMeta q v ++ post)) = some v) ∧
    (∀ q pre v post, (q = '"' ∨ q = sqC) → ogValOk v → noMetaOpen pre →
      noMetaOpen post →
      titleOf (pre ++ (revMeta q v ++ post)) = some v) ∧
    (∀ pre w post,
      extractOGTag (pre ++ (titleElem w ++ post)) "og:title".data = none →
      w ≠ [] → (∀ c ∈ w, CharSet.memb true notLt c = true) →
      noTitleOpen pre →
      titleOf (pre ++ (titleElem w ++ post)) = some (jsTrim w)) ∧
    (∀ html, titleOf html = none ↔
      extractOGTag html "og:title".data = none ∧
      extractTag html titleTagRI = none) := by
  refine ⟨?_, ?_, ?_, ?_⟩
  · intro q pre v post hq hv hpre
    have h := extractOGTag_fwdDoc q pre v post hq hv hpre
    have he : v.isEmpty = false := by
      cases hv2 : v with
      | nil => exact absurd hv2 hv.1
      | cons a l => rfl
    unfold titleOf
    rw [h]
    simp [jsOr, he]
  · intro q pre v post hq hv hpre hpost
    have h := extractOGTag_revDoc q pre v post hq hv hpre hpost
    have he : v.isEmpty = false := by
      cases hv2 : v with
      | nil => exact absurd hv2 hv.1
      | cons a l => rfl
    unfold titleOf
    rw [h]
    simp [jsOr, he]
  · intro pre w post hog hwne hw hpre
    unfold titleOf
    rw [hog]
    show extractTag (pre ++ (titleElem w ++ post)) titleTagRI = some (jsTrim w)
    exact extractTag_titleDoc pre w post hwne hw hpre
  · intro html
    unfold titleOf
    rcases extractOGTag_cases html "og:title".data with h | ⟨s, h, hs⟩
    · rw [h]
      show extractTag html titleTagRI = none ↔ _
      constructor
      · intro h2; exact ⟨rfl, h2⟩
      · intro h2; exact h2.2
    · rw [h]
      have he : s.isEmpty = false := by
        cases hs2 : s with
        | nil => exact absurd hs2 hs
        | cons a l => rfl
      constructor
      · intro h2
        simp [jsOr, he] at h2
      · intro h2
        exact absurd h2.1 (by simp)

/-- C5 witness at the specification test values. -/
theorem c5_title_extraction_witness :
    titleOf ([] ++ (fwdMeta '"' "Foo".data ++ [])) = some "Foo".data ∧
    titleOf ([] ++ (revMeta '"' "Bar".data ++ [])) = some "Bar".data ∧
    titleOf ([] ++ (titleElem " Widget ".data ++ [])) =
      some (jsTrim " Widget ".data) :=
  ⟨c5_title_extraction.1 '"' [] "Foo".data [] (Or.inl rfl)
     ⟨by decide, by decide, by decide, by decide⟩
     (by unfold noMetaOpen; decide),
   c5_title_extraction.2.1 '"' [] "Bar".data [] (Or.inl rfl)
     ⟨by decide, by decide, by decide, by decide⟩
     (by unfold noMetaOpen; decide) (by unfold noMetaOpen; decide),
   c5_title_extraction.2.2.1 [] " Widget ".data [] (by decide) (by decide)
     (by decide) (by unfold noTitleOpen; decide)⟩
